import Mathlib

/-!
Verification of the HTML theme router core (`src/lib/html/router.ts`).

The development shallowly embeds the router: the node tree is an inductive
tree, a node is identified by its leaf-first index path (parent = tail),
the mutable per-page state (`_sluggers` / `_slugs` WeakMaps) is threaded
explicitly as association lists, and the fallible assertions become an
`Except` error type with the two failure conditions of the source.
-/

namespace Router

/-! ### Association lists (the WeakMap / plain-object stores) -/

/-- Lookup of the first binding of a key, mirroring JS object property access. -/
def lookupA {α β : Type} [DecidableEq α] : List (α × β) → α → Option β
  | [], _ => none
  | e :: l, k => if e.1 = k then some e.2 else lookupA l k

/-- Set a key, replacing the first existing binding or appending a new one,
mirroring JS object / WeakMap assignment. -/
def setA {α β : Type} [DecidableEq α] : List (α × β) → α → β → List (α × β)
  | [], k, v => [(k, v)]
  | e :: l, k, v => if e.1 = k then (k, v) :: l else e :: setA l k v

/-! ### Character and string helpers -/

/-- Lowercasing of a string, characterwise; used to state case-insensitive
distinctness and to model the label normalisation of the uniquifier. -/
def strLower (s : String) : String := ⟨s.data.map Char.toLower⟩

/-- A string is already lowercase when lowering it is the identity. -/
def IsLowered (s : String) : Prop := strLower s = s

/-- Join a list of strings with a single-character separator, mirroring the
JS `Array.prototype.join`. -/
def joinSep (sep : Char) : List String → String
  | [] => ""
  | [x] => x
  | x :: y :: l => x ++ sep.toString ++ joinSep sep (y :: l)

/-- Split a character list at a separator character. -/
def splitCharAux (sep : Char) : List Char → List Char → List String
  | [], acc => [⟨acc.reverse⟩]
  | c :: cs, acc =>
    if c = sep then ⟨acc.reverse⟩ :: splitCharAux sep cs []
    else splitCharAux sep cs (c :: acc)

/-- Split a string at a separator character, mirroring `String.prototype.split`
with a one-character separator. -/
def splitChar (sep : Char) (s : String) : List String := splitCharAux sep s.data []

/-- Decimal digits of a natural number, least significant first; `fuel`-driven
structural recursion (`fuel ≥ n` suffices). -/
def decDigitsAux : Nat → Nat → List Nat
  | 0, _ => []
  | _ + 1, 0 => []
  | fuel + 1, n => n % 10 :: decDigitsAux fuel (n / 10)

def decDigits (n : Nat) : List Nat := decDigitsAux n n

/-- Reconstruct a number from its little-endian decimal digit list. -/
def ofDec : List Nat → Nat
  | [] => 0
  | d :: l => d + 10 * ofDec l

/-- Decimal string representation of a natural number, as produced by the JS
string conversion of a counter. -/
def natRepr (n : Nat) : String :=
  if n = 0 then "0" else ⟨(decDigits n).reverse.map Nat.digitChar⟩

/-! ### The label uniquifier (Slugger) -/

/-- Modelled from the spec: the label normalisation step of the external
uniquifier capability (the `Slugger` of the `marked` package, which is not
part of the sources). Anchors must be case-insensitive unique, so the
normalised identifier is the case-folded label. -/
def serialize (s : String) : String := strLower s

/-- A candidate identifier: the base label with a disambiguating counter. -/
def slugCand (base : String) (k : Nat) : String := base ++ "-" ++ natRepr k

/-- Modelled from the spec: the external label uniquifier. It remembers every
identifier it has issued (with the counter last used for each base label) and
appends a fresh disambiguating counter when a label repeats. -/
structure Slugger where
  seen : List (String × Nat)

/-- The search for the next safe slug: try `base-k` for increasing `k`; the
fuel `seen.length + 1` always suffices to find a free candidate. -/
def slugLoop (seen : List (String × Nat)) (base : String) : Nat → Nat → String × Nat
  | 0, acc => (slugCand base acc, acc)
  | fuel + 1, acc =>
    if (lookupA seen (slugCand base acc)).isSome then slugLoop seen base fuel (acc + 1)
    else (slugCand base acc, acc)

/-- The identifier picked for a (normalised) base label, together with the
counter recorded for that base: the base itself when unseen, otherwise the
first safe `base-k` continuing from the stored counter. -/
def slugPick (st : Slugger) (base : String) : String × Nat :=
  if (lookupA st.seen base).isSome then
    slugLoop st.seen base (st.seen.length + 1) ((lookupA st.seen base).getD 0 + 1)
  else (base, 0)

/-- Issue a slug for a label: normalise, find the next safe identifier, and
record both the updated counter for the base and the issued identifier. -/
def Slugger.slug (st : Slugger) (value : String) : String × Slugger :=
  ((slugPick st (serialize value)).1,
    ⟨setA (setA st.seen (serialize value) (slugPick st (serialize value)).2)
      (slugPick st (serialize value)).1 0⟩)

/-! ### The reflection model

Modelled from the spec (the `../models` module is outside the given
sources): nodes carry a `kind` tag, a display `name` and ordered
`children`; the Project is the unique tree root. -/

inductive ReflectionKind where
  | Project
  | Module
  | Namespace
  | Class
  | Interface
  | Function
  | Method
  | Signature
deriving DecidableEq

/-- Modelled from the spec: the kind qualifier used in leaf filenames, as in
the scenario filenames `core/Class.Foo.html`, `core/Interface.Foo.html`,
`core/Namespace.Foo.html`. -/
def ReflectionKind.toKindString : ReflectionKind → String
  | .Project => "Project"
  | .Module => "Module"
  | .Namespace => "Namespace"
  | .Class => "Class"
  | .Interface => "Interface"
  | .Function => "Function"
  | .Method => "Method"
  | .Signature => "Signature"

/-- A documentation node: kind, display name, ordered children. -/
inductive Refl where
  | node (kind : ReflectionKind) (name : String) (children : List Refl)

def Refl.kind : Refl → ReflectionKind
  | .node k _ _ => k

def Refl.name : Refl → String
  | .node _ n _ => n

def Refl.children : Refl → List Refl
  | .node _ _ cs => cs

/-- A node of a tree is addressed by its leaf-first child-index path: `[]` is
the root and `i :: p` is child number `i` of the node at `p`, so `List.tail`
is the `parent` back-reference and node identity is path identity. -/
def getAt (t : Refl) : List Nat → Option Refl
  | [] => some t
  | i :: p => (getAt t p).bind fun r => r.children[i]?

def kindAt (t : Refl) (p : List Nat) : Option ReflectionKind :=
  (getAt t p).map Refl.kind

/-- The default Page-Ownership Policy of `ThemeRouter.hasOwnDocument`:
Project, Module, Namespace, Class and Interface own their own page. -/
def hasOwnDocument : ReflectionKind → Bool
  | .Project => true
  | .Module => true
  | .Namespace => true
  | .Class => true
  | .Interface => true
  | _ => false

/-- The Page-Ownership Policy of `MinimalThemeRouter.hasOwnDocument`:
only the Project (the tree root) owns a page. -/
def minimalHasOwnDocument (k : ReflectionKind) : Bool := k = .Project

/-- The two fatal failure conditions of the router core: a missing `parent`
link before a document owner was found, and a parentless non-Project node
reached while building a filename. -/
inductive Err where
  | brokenAncestry
  | nonProjectRoot
deriving DecidableEq

/-- Walk `parent` links until the policy accepts a node
(`ThemeRouter._getReflectionWithDocument`); a missing parent is fatal. -/
def _getReflectionWithDocument (t : Refl) (pol : ReflectionKind → Bool) :
    List Nat → Except Err (List Nat)
  | [] =>
    match kindAt t [] with
    | none => .error .brokenAncestry
    | some k => if pol k then .ok [] else .error .brokenAncestry
  | i :: p =>
    match kindAt t (i :: p) with
    | none => .error .brokenAncestry
    | some k => if pol k then .ok (i :: p) else _getReflectionWithDocument t pol p

/-- The character class kept by the sanitizer `ThemeRouter._getSafeFilename`:
ASCII letters, digits, dot, underscore and dash. -/
def goodChar (c : Char) : Bool :=
  decide (('A' ≤ c ∧ c ≤ 'Z') ∨ ('a' ≤ c ∧ c ≤ 'z') ∨ ('0' ≤ c ∧ c ≤ '9') ∨
    c = '.' ∨ c = '_' ∨ c = '-')

def sanitizeChar (c : Char) : Char := if goodChar c then c else '_'

/-- The sanitizer `ThemeRouter._getSafeFilename`: every character outside the
kept class is replaced by an underscore, and so is a leading dash (the anchored
alternative of the source's global replacement). -/
def _getSafeFilename (name : String) : String :=
  match name.data with
  | [] => ""
  | c :: cs => ⟨(if ¬goodChar c ∨ c = '-' then '_' else c) :: cs.map sanitizeChar⟩

/-- The sanitized names of the ancestors of the node at `p`, the root
excluded, outermost first: the `parts` loop of `getDocumentName`. -/
def pathParts (t : Refl) : List Nat → Option (List String)
  | [] => some []
  | i :: p => do
    let rest ← pathParts t p
    let r ← getAt t (i :: p)
    some (rest ++ [_getSafeFilename r.name])

/-- Whether any direct child of the node at `p` owns its own document
(`ThemeRouter._anyChildrenHaveOwnDocument`); a childless node has no
container children, giving the `false` branch of the source. -/
def _anyChildrenHaveOwnDocument (t : Refl) (pol : ReflectionKind → Bool) (p : List Nat) : Bool :=
  match getAt t p with
  | none => false
  | some r => r.children.any fun c => pol c.kind

/-- The output filename of the page containing the node at `p`
(`ThemeRouter.getDocumentName`). -/
def getDocumentName (t : Refl) (pol : ReflectionKind → Bool) (p : List Nat) :
    Except Err String :=
  match _getReflectionWithDocument t pol p with
  | .error e => .error e
  | .ok o =>
    match pathParts t o, getAt t o with
    | some parts, some r =>
      if t.kind = .Project then
        if _anyChildrenHaveOwnDocument t pol o || (r.kind = .Project) then
          .ok (joinSep '/' (parts ++ ["index.html"]))
        else
          .ok (joinSep '/' (parts.dropLast ++
            [r.kind.toKindString ++ "." ++ _getSafeFilename r.name ++ ".html"]))
      else .error .nonProjectRoot
    | _, _ => .error .brokenAncestry

/-- The hierarchy labels collected by the header-less branch of `createSlug`:
names from the owner (exclusive) down to the node, skipping Signature-kind
nodes, joined later with `-`. -/
def slugParts (t : Refl) (o : List Nat) : List Nat → Except Err (List String)
  | [] => if ([] : List Nat) = o then .ok [] else .error .brokenAncestry
  | i :: q =>
    if i :: q = o then .ok []
    else
      match slugParts t o q, getAt t (i :: q) with
      | .error e, _ => .error e
      | .ok _, none => .error .brokenAncestry
      | .ok rest, some r =>
        .ok (rest ++ if r.kind = .Signature then [] else [r.name])

/-- The per-router mutable state: the `_sluggers` and `_slugs` weak maps,
keyed by the owning node of each page. -/
structure RouterState where
  sluggers : List (List Nat × Slugger)
  slugs : List (List Nat × List (List Nat × String))

def initialState : RouterState := ⟨[], []⟩

/-- A freshly created page slugger with the reserved page-chrome ids
pre-registered: `slug("main"); slug("search"); slug("theme")`. -/
def seedSlugger : Slugger :=
  ((((⟨[]⟩ : Slugger).slug "main").2.slug "search").2.slug "theme").2

/-- The hierarchy (node-identity) branch of `createSlug`: build the label
from the names between the node and its owner, then return the memoised
slug or issue and memoise a fresh one. -/
def createSlugHierarchy (t : Refl) (pol : ReflectionKind → Bool) (σ : RouterState)
    (p o : List Nat) (st0 : Slugger) : Except Err (String × RouterState) :=
  match slugParts t o p with
  | .error e => .error e
  | .ok parts =>
    let memo := (lookupA σ.slugs o).getD []
    match lookupA memo p with
    | some s => .ok (s, ⟨setA σ.sluggers o st0, setA σ.slugs o (setA memo p s)⟩)
    | none =>
      let r := st0.slug (joinSep '-' parts)
      .ok (r.1, ⟨setA σ.sluggers o r.2, setA σ.slugs o (setA memo p r.1)⟩)

/-- The anchor generator `ThemeRouter.createSlug`. The source's guards use
JS truthiness (`!header`, `if (header)`), under which the empty-string
header is falsy and behaves exactly like an absent header. -/
def createSlug (t : Refl) (pol : ReflectionKind → Bool) (σ : RouterState)
    (p : List Nat) (header : Option String) : Except Err (String × RouterState) :=
  match _getReflectionWithDocument t pol p with
  | .error e => .error e
  | .ok o =>
    if p = o ∧ (header = none ∨ header = some "") then .ok ("", σ)
    else
      let st0 := (lookupA σ.sluggers o).getD seedSlugger
      match header with
      | some h =>
        if h = "" then createSlugHierarchy t pol σ p o st0
        else
          let r := st0.slug h
          .ok (r.1, ⟨setA σ.sluggers o r.2, σ.slugs⟩)
      | none => createSlugHierarchy t pol σ p o st0

/-! ### Path helpers

Modelled from the spec: the relative-path computation over `/`-separated
reference paths (the `posix` path capability; relative paths between clean
document names, directory part, and joining a directory with a file name). -/

def posixDirname (p : String) : String :=
  let segs := splitChar '/' p
  if segs.length ≤ 1 then "." else joinSep '/' segs.dropLast

def posixJoin (a b : String) : String :=
  joinSep '/' ((splitChar '/' a ++ splitChar '/' b).filter fun s => !(s == ""))

def relSegs : List String → List String → List String
  | a :: as, b :: bs =>
    if a = b then relSegs as bs else (a :: as).map (fun _ => "..") ++ b :: bs
  | [], bs => bs
  | as, [] => as.map fun _ => ".."

def posixRelative (f t : String) : String :=
  let fs := (splitChar '/' f).filter fun s => !(s == "") && !(s == ".")
  let ts := (splitChar '/' t).filter fun s => !(s == "") && !(s == ".")
  joinSep '/' (relSegs fs ts)

/-- Link from the page of `fr` to the node `dst`, with an anchor when the
target's slug is nonempty (`ThemeRouter.createLink`). -/
def createLink (t : Refl) (pol : ReflectionKind → Bool) (σ : RouterState)
    (fr dst : List Nat) : Except Err (String × RouterState) :=
  match getDocumentName t pol fr with
  | .error e => .error e
  | .ok fromPage =>
    match getDocumentName t pol dst with
    | .error e => .error e
    | .ok toPage =>
      match createSlug t pol σ dst none with
      | .error e => .error e
      | .ok r =>
        .ok (posixRelative (posixDirname fromPage) toPage ++
          (if r.1 ≠ "" then "#" ++ r.1 else ""), r.2)

def getAssetDirectory : String := "assets"

def getMediaDirectory : String := "media"

/-- Link from the page of `fr` to an asset file (`ThemeRouter.createAssetLink`). -/
def createAssetLink (t : Refl) (pol : ReflectionKind → Bool) (σ : RouterState)
    (fr : List Nat) (asset : String) : Except Err (String × RouterState) :=
  match _getReflectionWithDocument t pol fr with
  | .error e => .error e
  | .ok o =>
    match getDocumentName t pol o with
    | .error e => .error e
    | .ok docName =>
      .ok (posixRelative (posixDirname docName) (posixJoin getAssetDirectory asset), σ)

/-- Link from the page of `fr` to a media file (`ThemeRouter.createMediaLink`).
The source joins the target onto `getAssetDirectory()`. -/
def createMediaLink (t : Refl) (pol : ReflectionKind → Bool) (σ : RouterState)
    (fr : List Nat) (media : String) : Except Err (String × RouterState) :=
  match _getReflectionWithDocument t pol fr with
  | .error e => .error e
  | .ok o =>
    match getDocumentName t pol o with
    | .error e => .error e
    | .ok docName =>
      .ok (posixRelative (posixDirname docName) (posixJoin getAssetDirectory media), σ)

/-- Modelled from the spec: `createMediaLink` as specified resolves the media
name against `getMediaDirectory()`; compared against the source's
`createMediaLink` above. -/
def createMediaLinkSpec (t : Refl) (pol : ReflectionKind → Bool) (σ : RouterState)
    (fr : List Nat) (media : String) : Except Err (String × RouterState) :=
  match _getReflectionWithDocument t pol fr with
  | .error e => .error e
  | .ok o =>
    match getDocumentName t pol o with
    | .error e => .error e
    | .ok docName =>
      .ok (posixRelative (posixDirname docName) (posixJoin getMediaDirectory media), σ)

/-- State-passing view of `getDocumentName`: the query reads no router state
and leaves it unchanged. -/
def getDocumentNameS (t : Refl) (pol : ReflectionKind → Bool) (σ : RouterState)
    (p : List Nat) : Except Err (String × RouterState) :=
  (getDocumentName t pol p).map fun s => (s, σ)

/-! ### Operation traces -/

/-- One public router operation, for stating properties over interleaved
call sequences. -/
inductive Op where
  | slugNode (p : List Nat)
  | slugHeader (p : List Nat) (h : String)
  | link (p q : List Nat)
  | assetLink (p : List Nat) (a : String)
  | mediaLink (p : List Nat) (m : String)
  | docName (p : List Nat)

def runOp (t : Refl) (pol : ReflectionKind → Bool) (σ : RouterState) :
    Op → Except Err RouterState
  | .slugNode p => (createSlug t pol σ p none).map Prod.snd
  | .slugHeader p h => (createSlug t pol σ p (some h)).map Prod.snd
  | .link p q => (createLink t pol σ p q).map Prod.snd
  | .assetLink p a => (createAssetLink t pol σ p a).map Prod.snd
  | .mediaLink p m => (createMediaLink t pol σ p m).map Prod.snd
  | .docName p => (getDocumentNameS t pol σ p).map Prod.snd

def runOps (t : Refl) (pol : ReflectionKind → Bool) :
    RouterState → List Op → Except Err RouterState
  | σ, [] => .ok σ
  | σ, op :: ops =>
    match runOp t pol σ op with
    | .error e => .error e
    | .ok σ' => runOps t pol σ' ops

/-! ### Concrete trees and invariant definitions -/

/-- The scenario tree: Project `MyLib` containing Module `core` containing
Class `Foo` containing Method `bar`. -/
def demoTree : Refl :=
  .node .Project "MyLib"
    [.node .Module "core" [.node .Class "Foo" [.node .Method "bar" []]]]

/-- A tree with two sibling classes whose distinct names sanitize to the
same filename fragment. -/
def cexTree : Refl :=
  .node .Project "P" [.node .Class "a*" [], .node .Class "a+" []]

/-- A tree with a Signature-kind node directly below its page owner. -/
def sigTree : Refl :=
  .node .Project "P" [.node .Class "C" [.node .Signature "s" []]]

/-- The state a fallible router call leaves behind (initial state if the
call failed). -/
def stateAfter (r : Except Err (String × RouterState)) : RouterState :=
  (r.toOption.map Prod.snd).getD initialState

/-- Two consecutive header-less slug queries for the same node. -/
def slugTwice (t : Refl) (pol : ReflectionKind → Bool) (σ : RouterState) (p : List Nat) :
    Except Err (String × String) := do
  let r1 ← createSlug t pol σ p none
  let r2 ← createSlug t pol r1.2 p none
  pure (r1.1, r2.1)

/-- Two consecutive slug queries for the same node with the same header. -/
def slugTwiceWithHeader (t : Refl) (pol : ReflectionKind → Bool) (σ : RouterState)
    (p : List Nat) (h : String) : Except Err (String × String) := do
  let r1 ← createSlug t pol σ p (some h)
  let r2 ← createSlug t pol r1.2 p (some h)
  pure (r1.1, r2.1)

/-- The memo of the page owned by `o` maps node `p` to slug `s`. -/
def MemoAt (σ : RouterState) (o p : List Nat) (s : String) : Prop :=
  ∃ memo, lookupA σ.slugs o = some memo ∧ lookupA memo p = some s

/-- Well-formedness of one page slugger: the reserved page-chrome ids are
registered and every seen key is case-folded. -/
def SeenOK (st : Slugger) : Prop :=
  (lookupA st.seen "main").isSome ∧ (lookupA st.seen "search").isSome ∧
    (lookupA st.seen "theme").isSome ∧ ∀ e ∈ st.seen, strLower e.1 = e.1

/-- Well-formedness of one page memo against its slugger: distinct memoised
slugs, each registered as seen and distinct from the reserved ids. -/
def MemoOK (st : Slugger) (memo : List (List Nat × String)) : Prop :=
  List.Pairwise (fun e e' => e.2 ≠ e'.2) memo ∧
    ∀ e ∈ memo,
      (lookupA st.seen e.2).isSome ∧ e.2 ≠ "main" ∧ e.2 ≠ "search" ∧ e.2 ≠ "theme"

/-- The router-state invariant maintained by every operation. -/
def INV (σ : RouterState) : Prop :=
  (∀ o st, lookupA σ.sluggers o = some st → SeenOK st) ∧
    (∀ o memo, lookupA σ.slugs o = some memo →
      ∃ st, lookupA σ.sluggers o = some st ∧ MemoOK st memo)

/-- A tree with two same-page methods whose names differ only in case. -/
def caseTree : Refl :=
  .node .Project "P" [.node .Class "C" [.node .Method "Foo" [], .node .Method "foo" []]]

/-- The state a fallible trace run leaves behind (initial state if it failed). -/
def stateAfterRun (r : Except Err RouterState) : RouterState :=
  r.toOption.getD initialState

theorem lookupA_setA_self {α β : Type} [DecidableEq α] (l : List (α × β)) (k : α) (v : β) :
    lookupA (setA l k v) k = some v := by
  induction l with
  | nil => simp [setA, lookupA]
  | cons e l ih =>
    by_cases h : e.1 = k
    · simp [setA, h, lookupA]
    · simp [setA, h, lookupA, ih]

theorem lookupA_setA_ne {α β : Type} [DecidableEq α] (l : List (α × β)) (k k' : α) (v : β)
    (h : k' ≠ k) : lookupA (setA l k v) k' = lookupA l k' := by
  have hkk : ¬(k = k') := fun h' => h h'.symm
  induction l with
  | nil => simp [setA, lookupA, hkk]
  | cons e l ih =>
    by_cases he : e.1 = k
    · subst he
      simp [setA, lookupA, hkk]
    · simp [setA, he, lookupA, ih]

theorem setA_eq_of_lookupA {α β : Type} [DecidableEq α] (l : List (α × β)) (k : α) (v : β)
    (h : lookupA l k = some v) : setA l k v = l := by
  induction l with
  | nil => simp [lookupA] at h
  | cons e l ih =>
    by_cases he : e.1 = k
    · rw [lookupA, if_pos he] at h
      injection h with h2
      rw [setA, if_pos he, ← he, ← h2]
    · rw [lookupA, if_neg he] at h
      rw [setA, if_neg he, ih h]

theorem setA_eq_append_of_lookupA_none {α β : Type} [DecidableEq α]
    (l : List (α × β)) (k : α) (v : β)
    (h : lookupA l k = none) : setA l k v = l ++ [(k, v)] := by
  induction l with
  | nil => simp [setA]
  | cons e l ih =>
    by_cases he : e.1 = k
    · simp [lookupA, he] at h
    · simp [lookupA, he] at h
      simp [setA, he, ih h]

theorem mem_setA {α β : Type} [DecidableEq α] (l : List (α × β)) (k : α) (v : β) (e : α × β)
    (h : e ∈ setA l k v) : e ∈ l ∨ e = (k, v) := by
  induction l with
  | nil =>
    rw [setA] at h
    exact Or.inr (by simpa using h)
  | cons e' l ih =>
    by_cases he : e'.1 = k
    · rw [setA, if_pos he] at h
      rcases List.mem_cons.1 h with h | h
      · exact Or.inr h
      · exact Or.inl (List.mem_cons_of_mem _ h)
    · rw [setA, if_neg he] at h
      rcases List.mem_cons.1 h with h | h
      · exact Or.inl (h ▸ List.mem_cons_self _ _)
      · rcases ih h with h' | h'
        · exact Or.inl (List.mem_cons_of_mem _ h')
        · exact Or.inr h'

theorem lookupA_isSome_setA {α β : Type} [DecidableEq α] (l : List (α × β)) (k k' : α) (v : β)
    (h : (lookupA l k').isSome) : (lookupA (setA l k v) k').isSome := by
  by_cases hk : k' = k
  · subst hk; simp [lookupA_setA_self]
  · rwa [lookupA_setA_ne _ _ _ _ hk]

theorem lookupA_mem {α β : Type} [DecidableEq α] (l : List (α × β)) (k : α) (v : β)
    (h : lookupA l k = some v) : (k, v) ∈ l := by
  induction l with
  | nil => simp [lookupA] at h
  | cons e l ih =>
    by_cases he : e.1 = k
    · rw [lookupA, if_pos he] at h
      injection h with h2
      have : (k, v) = e := by rw [← he, ← h2]
      rw [this]
      exact List.mem_cons_self _ _
    · rw [lookupA, if_neg he] at h
      exact List.mem_cons_of_mem _ (ih h)

theorem mem_lookupA_isSome {α β : Type} [DecidableEq α] (l : List (α × β)) (k : α) (v : β)
    (h : (k, v) ∈ l) : (lookupA l k).isSome := by
  induction l with
  | nil => simp at h
  | cons e l ih =>
    rcases List.mem_cons.1 h with h' | h'
    · rw [← h']
      simp [lookupA]
    · by_cases he : e.1 = k
      · simp [lookupA, he]
      · simp [lookupA, he, ih h']

theorem char_toNat_ofNat_valid (n : Nat) (h : n.isValidChar) : (Char.ofNat n).toNat = n := by
  simp only [Char.ofNat, dif_pos h, Char.ofNatAux, Char.toNat]
  rfl

theorem char_toLower_idem (c : Char) : c.toLower.toLower = c.toLower := by
  unfold Char.toLower
  by_cases h : c.toNat ≥ 65 ∧ c.toNat ≤ 90
  · have hv : (c.toNat + 32).isValidChar := Or.inl (by omega)
    have ht := char_toNat_ofNat_valid (c.toNat + 32) hv
    simp only [if_pos h, ht]
    rw [if_neg (by omega)]
  · simp [h]

theorem strLower_idem (s : String) : strLower (strLower s) = strLower s := by
  simp only [strLower, List.map_map]
  congr 1
  exact List.map_congr_left fun c _ => char_toLower_idem c

theorem strLower_append (s t : String) :
    strLower (s ++ t) = strLower s ++ strLower t := by
  apply String.ext
  simp [strLower, String.data_append]

theorem ofDec_decDigitsAux (fuel n : Nat) (h : n ≤ fuel) :
    ofDec (decDigitsAux fuel n) = n := by
  induction fuel generalizing n with
  | zero =>
    have : n = 0 := by omega
    subst this
    rfl
  | succ fuel ih =>
    match n with
    | 0 => rfl
    | m + 1 =>
      have hdiv : (m + 1) / 10 ≤ fuel := by omega
      simp only [decDigitsAux, ofDec, ih _ hdiv]
      omega

theorem ofDec_decDigits (n : Nat) : ofDec (decDigits n) = n :=
  ofDec_decDigitsAux n n le_rfl

theorem decDigitsAux_lt_ten (fuel n : Nat) (d : Nat) (h : d ∈ decDigitsAux fuel n) :
    d < 10 := by
  induction fuel generalizing n with
  | zero => simp [decDigitsAux] at h
  | succ fuel ih =>
    match n with
    | 0 => simp [decDigitsAux] at h
    | m + 1 =>
      simp only [decDigitsAux, List.mem_cons] at h
      rcases h with h | h
      · omega
      · exact ih _ h

theorem digitChar_inj_lt (a b : Nat) (ha : a < 10) (hb : b < 10)
    (h : Nat.digitChar a = Nat.digitChar b) : a = b := by
  interval_cases a <;> interval_cases b <;> revert h <;> decide

theorem mapDigitChar_inj : ∀ (l1 l2 : List Nat), (∀ x ∈ l1, x < 10) → (∀ x ∈ l2, x < 10) →
    l1.map Nat.digitChar = l2.map Nat.digitChar → l1 = l2
  | [], [], _, _, _ => rfl
  | [], _ :: _, _, _, h => by simp at h
  | _ :: _, [], _, _, h => by simp at h
  | a :: l1, b :: l2, h1, h2, h => by
    simp only [List.map_cons, List.cons.injEq] at h
    have hab : a = b :=
      digitChar_inj_lt a b (h1 a (List.mem_cons_self _ _)) (h2 b (List.mem_cons_self _ _)) h.1
    have hl : l1 = l2 :=
      mapDigitChar_inj l1 l2 (fun x hx => h1 x (List.mem_cons_of_mem _ hx))
        (fun x hx => h2 x (List.mem_cons_of_mem _ hx)) h.2
    rw [hab, hl]

theorem decDigits_lt_ten (n d : Nat) (h : d ∈ decDigits n) : d < 10 :=
  decDigitsAux_lt_ten n n d h

theorem natRepr_ne_zero_str (b : Nat) (hb : b ≠ 0) : natRepr b ≠ "0" := by
  intro h
  rw [natRepr, if_neg hb] at h
  have hdata : (decDigits b).reverse.map Nat.digitChar = ['0'] := by
    have := congrArg String.data h
    simpa using this
  have hz : (decDigits b).reverse = [0] := by
    apply mapDigitChar_inj
    · intro x hx
      exact decDigits_lt_ten b x (List.mem_reverse.1 hx)
    · intro x hx
      simp at hx
      omega
    · simpa using hdata
  have : decDigits b = [0] := by
    have := congrArg List.reverse hz
    simpa using this
  have h0 := ofDec_decDigits b
  rw [this] at h0
  simp [ofDec] at h0
  exact hb h0.symm

theorem natRepr_inj (a b : Nat) (h : natRepr a = natRepr b) : a = b := by
  by_cases ha : a = 0 <;> by_cases hb : b = 0
  · omega
  · subst ha
    rw [show natRepr 0 = "0" from rfl] at h
    exact absurd h.symm (natRepr_ne_zero_str b hb)
  · subst hb
    rw [show natRepr 0 = "0" from rfl] at h
    exact absurd h (natRepr_ne_zero_str a ha)
  · rw [natRepr, if_neg ha, natRepr, if_neg hb] at h
    have hdata : (decDigits a).reverse.map Nat.digitChar =
        (decDigits b).reverse.map Nat.digitChar := by
      have := congrArg String.data h
      simpa using this
    have hrev : (decDigits a).reverse = (decDigits b).reverse := by
      apply mapDigitChar_inj
      · intro x hx
        exact decDigits_lt_ten a x (List.mem_reverse.1 hx)
      · intro x hx
        exact decDigits_lt_ten b x (List.mem_reverse.1 hx)
      · exact hdata
    have hdig : decDigits a = decDigits b := List.reverse_injective hrev
    have h1 := ofDec_decDigits a
    rw [hdig, ofDec_decDigits b] at h1
    omega

/-! ### Separator-based string decompositions -/

/-- Splitting a character list at the first occurrence of a separator character
is unambiguous when neither left factor contains the separator. -/
theorem sep_factor_inj {sep : Char} : ∀ (a b x y : List Char), sep ∉ a → sep ∉ b →
    a ++ sep :: x = b ++ sep :: y → a = b ∧ x = y
  | [], [], x, y, _, _, h => by simpa using h
  | [], c :: b, x, y, _, hb, h => by
    simp only [List.nil_append, List.cons_append, List.cons.injEq] at h
    exact absurd (h.1 ▸ List.mem_cons_self c b) hb
  | c :: a, [], x, y, ha, _, h => by
    simp only [List.nil_append, List.cons_append, List.cons.injEq] at h
    exact absurd (h.1.symm ▸ List.mem_cons_self c a) ha
  | c :: a, d :: b, x, y, ha, hb, h => by
    simp only [List.cons_append, List.cons.injEq] at h
    have := sep_factor_inj a b x y (fun hm => ha (List.mem_cons_of_mem _ hm))
      (fun hm => hb (List.mem_cons_of_mem _ hm)) h.2
    exact ⟨by rw [h.1, this.1], this.2⟩

theorem char_toString_data (c : Char) : c.toString.data = [c] := rfl

theorem joinSep_cons_data (sep : Char) (x y : String) (l : List String) :
    (joinSep sep (x :: y :: l)).data = x.data ++ sep :: (joinSep sep (y :: l)).data := by
  show (x ++ sep.toString ++ joinSep sep (y :: l)).data = _
  simp [String.data_append, char_toString_data]

/-- Joining nonempty lists of separator-free segments is injective. -/
theorem joinSep_inj (sep : Char) : ∀ (l1 l2 : List String),
    (∀ s ∈ l1, sep ∉ s.data) → (∀ s ∈ l2, sep ∉ s.data) → l1 ≠ [] → l2 ≠ [] →
    joinSep sep l1 = joinSep sep l2 → l1 = l2
  | [], _, _, _, n1, _, _ => absurd rfl n1
  | _, [], _, _, _, n2, _ => absurd rfl n2
  | [x], [y], _, _, _, _, h => by rw [show x = y from h]
  | [x], y :: z :: l2, h1, _, _, _, h => by
    exfalso
    have hd := congrArg String.data h
    rw [joinSep_cons_data] at hd
    have hs : sep ∈ (joinSep sep [x]).data := by
      rw [show joinSep sep [x] = x from rfl] at hd ⊢
      rw [hd]
      exact List.mem_append.2 (Or.inr (List.mem_cons_self _ _))
    exact h1 x (List.mem_cons_self _ _) (by simpa using hs)
  | x :: z :: l1, [y], _, h2, _, _, h => by
    exfalso
    have hd := congrArg String.data h
    rw [joinSep_cons_data] at hd
    have hs : sep ∈ (joinSep sep [y]).data := by
      rw [show joinSep sep [y] = y from rfl] at hd ⊢
      rw [← hd]
      exact List.mem_append.2 (Or.inr (List.mem_cons_self _ _))
    exact h2 y (List.mem_cons_self _ _) (by simpa using hs)
  | x :: x' :: l1, y :: y' :: l2, h1, h2, _, _, h => by
    have hd := congrArg String.data h
    rw [joinSep_cons_data, joinSep_cons_data] at hd
    have hf := sep_factor_inj x.data y.data _ _
      (h1 x (List.mem_cons_self _ _)) (h2 y (List.mem_cons_self _ _)) hd
    have hxy : x = y := String.ext hf.1
    have htail : joinSep sep (x' :: l1) = joinSep sep (y' :: l2) := String.ext hf.2
    have := joinSep_inj sep (x' :: l1) (y' :: l2)
      (fun s hs => h1 s (List.mem_cons_of_mem _ hs))
      (fun s hs => h2 s (List.mem_cons_of_mem _ hs))
      (List.cons_ne_nil _ _) (List.cons_ne_nil _ _) htail
    rw [hxy, this]

theorem slugCand_inj (base : String) (k1 k2 : Nat) (h : slugCand base k1 = slugCand base k2) :
    k1 = k2 := by
  have hd := congrArg String.data h
  simp only [slugCand, String.data_append] at hd
  have := List.append_cancel_left hd
  exact natRepr_inj _ _ (String.ext this)

theorem digitChar_toLower (d : Nat) (h : d < 10) :
    (Nat.digitChar d).toLower = Nat.digitChar d := by
  interval_cases d <;> decide

theorem strLower_natRepr (k : Nat) : strLower (natRepr k) = natRepr k := by
  by_cases hk : k = 0
  · subst hk; decide
  · rw [natRepr, if_neg hk]
    apply String.ext
    simp only [strLower]
    rw [List.map_map]
    apply List.map_congr_left
    intro d hd
    exact digitChar_toLower d (decDigits_lt_ten k d (List.mem_reverse.1 hd))

theorem strLower_slugCand (base : String) (k : Nat) (h : strLower base = base) :
    strLower (slugCand base k) = slugCand base k := by
  simp only [slugCand, strLower_append, h, strLower_natRepr]
  congr 1

theorem slugLoop_shape (seen : List (String × Nat)) (base : String) :
    ∀ (fuel acc : Nat), (slugLoop seen base fuel acc).1 =
      slugCand base (slugLoop seen base fuel acc).2
  | 0, _ => rfl
  | fuel + 1, acc => by
    rw [slugLoop]
    by_cases h : (lookupA seen (slugCand base acc)).isSome
    · rw [if_pos h]
      exact slugLoop_shape seen base fuel (acc + 1)
    · rw [if_neg h]

theorem slugLoop_free (seen : List (String × Nat)) (base : String) :
    ∀ (fuel acc : Nat),
      (∃ j, j < fuel ∧ ¬(lookupA seen (slugCand base (acc + j))).isSome) →
      ¬(lookupA seen (slugLoop seen base fuel acc).1).isSome
  | 0, acc, h => by
    obtain ⟨j, hj, _⟩ := h
    omega
  | fuel + 1, acc, h => by
    rw [slugLoop]
    by_cases hc : (lookupA seen (slugCand base acc)).isSome
    · rw [if_pos hc]
      obtain ⟨j, hj, hfree⟩ := h
      have hj0 : j ≠ 0 := by
        intro h0
        rw [h0, Nat.add_zero] at hfree
        exact hfree hc
      apply slugLoop_free seen base fuel (acc + 1)
      exact ⟨j - 1, by omega, by rw [show acc + 1 + (j - 1) = acc + j by omega]; exact hfree⟩
    · rw [if_neg hc]
      exact hc

theorem lookupA_isSome_mem_keys {β : Type} (l : List (String × β)) (s : String)
    (h : (lookupA l s).isSome) : s ∈ l.map Prod.fst := by
  obtain ⟨v, hv⟩ := Option.isSome_iff_exists.1 h
  exact List.mem_map.2 ⟨(s, v), lookupA_mem l s v hv, rfl⟩

theorem exists_free_cand (seen : List (String × Nat)) (base : String) (acc : Nat) :
    ∃ j, j ≤ seen.length ∧ ¬(lookupA seen (slugCand base (acc + j))).isSome := by
  by_contra hall
  push_neg at hall
  set n := seen.length with hn
  set L := (List.range (n + 1)).map (fun j => slugCand base (acc + j)) with hL
  have hnodup : L.Nodup := by
    apply List.Nodup.map _ (List.nodup_range (n + 1))
    intro j1 j2 hj
    have := slugCand_inj base (acc + j1) (acc + j2) hj
    omega
  have hsub : ∀ s ∈ L, s ∈ seen.map Prod.fst := by
    intro s hs
    obtain ⟨j, hjr, rfl⟩ := List.mem_map.1 hs
    have hjn : j ≤ n := by
      have := List.mem_range.1 hjr
      omega
    exact lookupA_isSome_mem_keys seen _ (hall j hjn)
  have hcard1 : L.toFinset.card = n + 1 := by
    rw [List.toFinset_card_of_nodup hnodup, hL]
    simp
  have hcard2 : L.toFinset.card ≤ n := by
    calc L.toFinset.card ≤ (seen.map Prod.fst).toFinset.card := by
          apply Finset.card_le_card
          intro s hs
          exact List.mem_toFinset.2 (hsub s (List.mem_toFinset.1 hs))
      _ ≤ (seen.map Prod.fst).length := List.toFinset_card_le _
      _ = n := by simp [hn]
  omega

theorem slugPick_fresh (st : Slugger) (base : String) :
    ¬(lookupA st.seen (slugPick st base).1).isSome := by
  unfold slugPick
  by_cases h : (lookupA st.seen base).isSome
  · rw [if_pos h]
    apply slugLoop_free
    obtain ⟨j, hj, hfree⟩ :=
      exists_free_cand st.seen base ((lookupA st.seen base).getD 0 + 1)
    exact ⟨j, by omega, hfree⟩
  · rw [if_neg h]
    exact h

/-- Freshness: the uniquifier never reissues an identifier it has seen. -/
theorem slug_fresh (st : Slugger) (v : String) :
    ¬(lookupA st.seen (st.slug v).1).isSome := by
  unfold Slugger.slug
  exact slugPick_fresh st (serialize v)

/-- The issued identifier is recorded as seen. -/
theorem slug_self_mem (st : Slugger) (v : String) :
    lookupA (st.slug v).2.seen (st.slug v).1 = some 0 := by
  unfold Slugger.slug
  exact lookupA_setA_self _ _ _

/-- The seen set only grows. -/
theorem slug_monotone (st : Slugger) (v : String) (x : String)
    (h : (lookupA st.seen x).isSome) : (lookupA (st.slug v).2.seen x).isSome := by
  unfold Slugger.slug
  exact lookupA_isSome_setA _ _ _ _ (lookupA_isSome_setA _ _ _ _ h)

theorem slugPick_lowered (st : Slugger) (base : String) (hb : strLower base = base) :
    strLower (slugPick st base).1 = (slugPick st base).1 := by
  unfold slugPick
  by_cases h : (lookupA st.seen base).isSome
  · rw [if_pos h, slugLoop_shape]
    exact strLower_slugCand _ _ hb
  · rw [if_neg h]
    exact hb

/-- Every identifier the uniquifier issues is already case-folded. -/
theorem slug_result_lowered (st : Slugger) (v : String) :
    strLower (st.slug v).1 = (st.slug v).1 := by
  unfold Slugger.slug
  exact slugPick_lowered st (serialize v) (strLower_idem v)

/-- All keys of the seen set stay case-folded. -/
theorem slug_keys_lowered (st : Slugger) (v : String)
    (h : ∀ e ∈ st.seen, strLower e.1 = e.1) :
    ∀ e ∈ (st.slug v).2.seen, strLower e.1 = e.1 := by
  intro e hm
  have hres := slug_result_lowered st v
  unfold Slugger.slug at hm hres
  rcases mem_setA _ _ _ _ hm with hm' | hm'
  · rcases mem_setA _ _ _ _ hm' with hm'' | hm''
    · exact h _ hm''
    · rw [show e.1 = serialize v from congrArg Prod.fst hm'']
      exact strLower_idem v
  · rw [hm']
    exact hres

/-! ### Sanitizer facts -/

theorem goodChar_sanitizeChar (c : Char) : goodChar (sanitizeChar c) = true := by
  unfold sanitizeChar
  by_cases h : goodChar c = true
  · rwa [if_pos h]
  · rw [if_neg h]
    decide

theorem goodChar_head (c : Char) :
    goodChar (if ¬goodChar c ∨ c = '-' then '_' else c) = true := by
  by_cases h : ¬goodChar c ∨ c = '-'
  · rw [if_pos h]
    decide
  · rw [if_neg h]
    push_neg at h
    simpa using h.1

/-- C5: every character of a sanitized name is in the safe class, the result
never starts with a dash, and each input character is mapped pointwise: bad
characters (and a leading dash) become an underscore, all others survive. -/
theorem C5_sanitizer (name : String) :
    (∀ c ∈ (_getSafeFilename name).data, goodChar c = true) ∧
    (∀ c, (_getSafeFilename name).data.head? = some c → c ≠ '-') ∧
    (_getSafeFilename name).data.length = name.data.length ∧
    (∀ i c c', name.data.get? i = some c → (_getSafeFilename name).data.get? i = some c' →
      c' = if ¬goodChar c ∨ (i = 0 ∧ c = '-') then '_' else c) := by
  rcases hname : name.data with _ | ⟨c, cs⟩
  · unfold _getSafeFilename
    rw [hname]
    refine ⟨by simp, by simp, by simp [hname], ?_⟩
    intro i c c' hc hc'
    simp at hc'
  · unfold _getSafeFilename
    rw [hname]
    refine ⟨?_, ?_, by simp [hname], ?_⟩
    · intro x hx
      rcases List.mem_cons.1 hx with hx | hx
      · rw [hx]
        exact goodChar_head c
      · obtain ⟨y, _, rfl⟩ := List.mem_map.1 hx
        exact goodChar_sanitizeChar y
    · intro x hx
      simp only [List.head?] at hx
      injection hx with hx
      rw [← hx]
      by_cases h : ¬goodChar c ∨ c = '-'
      · rw [if_pos h]
        decide
      · rw [if_neg h]
        push_neg at h
        exact h.2
    · intro i x x' hx hx'
      match i with
      | 0 =>
        simp only [List.get?] at hx hx'
        injection hx with hx
        injection hx' with hx'
        rw [← hx, ← hx']
        by_cases h : ¬goodChar c ∨ c = '-'
        · rw [if_pos h, if_pos (by tauto)]
        · rw [if_neg h, if_neg (by tauto)]
      | i + 1 =>
        simp only [List.get?] at hx hx'
        rw [List.get?_map] at hx'
        rw [hx] at hx'
        simp only [Option.map_some'] at hx'
        injection hx' with hx'
        rw [← hx']
        unfold sanitizeChar
        by_cases h : goodChar x = true
        · rw [if_pos h, if_neg (by simp [h])]
        · rw [if_neg h, if_pos (by tauto)]

/-- C5 witness: the sanitizer at the concrete name `-a*b`: the leading dash
and the star are replaced by underscores. -/
theorem C5_sanitizer_witness :
    "-a*b".data.get? 0 = some '-' ∧ (_getSafeFilename "-a*b").data.get? 0 = some '_' ∧
    '_' = if ¬goodChar '-' ∨ (0 = 0 ∧ '-' = '-') then '_' else '-' :=
  ⟨by decide, by decide,
    (C5_sanitizer "-a*b").2.2.2 0 '-' '_' (by decide) (by decide)⟩

/-! ### Claims settled on concrete inputs -/

/-- C1: at the Project root with media name `logo.png`, the source's
`createMediaLink` resolves into the `assets` directory (it joins onto
`getAssetDirectory()`), while the specified behaviour resolves into the
`media` directory of `getMediaDirectory()`. -/
theorem C1_createMediaLink_misdirected :
    (createMediaLink demoTree hasOwnDocument initialState [] "logo.png").map Prod.fst =
      .ok "assets/logo.png" ∧
    (createMediaLinkSpec demoTree hasOwnDocument initialState [] "logo.png").map Prod.fst =
      .ok "media/logo.png" ∧
    getMediaDirectory = "media" ∧
    ("assets/logo.png" : String) ≠ "media/logo.png" :=
  ⟨rfl, rfl, rfl, by decide⟩

/-- C6: the scenario tree Project `MyLib` → Module `core` → Class `Foo` →
Method `bar` under the default policy produces exactly the expected document
names, slugs and link. -/
theorem C6_scenario :
    getDocumentName demoTree hasOwnDocument [] = .ok "index.html" ∧
    getDocumentName demoTree hasOwnDocument [0] = .ok "core/index.html" ∧
    getDocumentName demoTree hasOwnDocument [0, 0] = .ok "core/Class.Foo.html" ∧
    getDocumentName demoTree hasOwnDocument [0, 0, 0] = .ok "core/Class.Foo.html" ∧
    slugTwice demoTree hasOwnDocument initialState [0, 0, 0] = .ok ("bar", "bar") ∧
    (createSlug demoTree hasOwnDocument initialState [] none).map Prod.fst = .ok "" ∧
    (createLink demoTree hasOwnDocument initialState [0, 0, 0] []).map Prod.fst =
      .ok "../index.html" ∧
    '#' ∉ "../index.html".data :=
  ⟨rfl, rfl, rfl, rfl, rfl, rfl, rfl, by decide⟩

/-- C2 counterexample: the sibling classes named `a*` and `a+` are distinct
document-owning nodes whose document names collide on `Class.a_.html`. -/
theorem C2_counterexample :
    kindAt cexTree [0] = some .Class ∧ kindAt cexTree [1] = some .Class ∧
    hasOwnDocument .Class = true ∧ ([0] : List Nat) ≠ [1] ∧
    getDocumentName cexTree hasOwnDocument [0] = getDocumentName cexTree hasOwnDocument [1] ∧
    getDocumentName cexTree hasOwnDocument [0] = .ok "Class.a_.html" :=
  ⟨rfl, rfl, rfl, by decide, rfl, rfl⟩

/-- C7 counterexample: on the page of class `C`, the header-less query for
the owner itself and the header-less query for its Signature child are
queries for distinct nodes of the same page yet both return the empty
string (the first query leaves the state unchanged, so the two calls form a
consecutive trace). -/
theorem C7_counterexample :
    createSlug sigTree hasOwnDocument initialState [0] none = .ok ("", initialState) ∧
    (createSlug sigTree hasOwnDocument initialState [0, 0] none).map Prod.fst = .ok "" ∧
    ([0] : List Nat) ≠ [0, 0] ∧
    _getReflectionWithDocument sigTree hasOwnDocument [0] = .ok [0] ∧
    _getReflectionWithDocument sigTree hasOwnDocument [0, 0] = .ok [0] :=
  ⟨rfl, rfl, by decide, rfl, rfl⟩

/-! ### Inversion of createSlug -/

/-- An empty-string header is falsy in the source and acts exactly like an
absent header. -/
theorem createSlug_empty_header (t : Refl) (pol : ReflectionKind → Bool) (σ : RouterState)
    (p : List Nat) :
    createSlug t pol σ p (some "") = createSlug t pol σ p none := by
  unfold createSlug
  cases _getReflectionWithDocument t pol p with
  | error e => rfl
  | ok o =>
    dsimp only []
    by_cases hpo : p = o
    · rw [if_pos ⟨hpo, Or.inr rfl⟩, if_pos ⟨hpo, Or.inl rfl⟩]
    · rw [if_neg (show ¬(p = o ∧ ((some "" : Option String) = none ∨
          (some "" : Option String) = some "")) by simp [hpo]),
        if_neg (show ¬(p = o ∧ ((none : Option String) = none ∨
          (none : Option String) = some "")) by simp [hpo])]
      rfl

theorem createSlug_header_inv (t : Refl) (pol : ReflectionKind → Bool) (σ : RouterState)
    (p : List Nat) (h s : String) (σ' : RouterState) (hne : h ≠ "")
    (hcs : createSlug t pol σ p (some h) = .ok (s, σ')) :
    ∃ o, _getReflectionWithDocument t pol p = .ok o ∧
      s = (((lookupA σ.sluggers o).getD seedSlugger).slug h).1 ∧
      σ'.sluggers = setA σ.sluggers o (((lookupA σ.sluggers o).getD seedSlugger).slug h).2 ∧
      σ'.slugs = σ.slugs := by
  unfold createSlug at hcs
  cases hres : _getReflectionWithDocument t pol p with
  | error e =>
    rw [hres] at hcs
    simp at hcs
  | ok o =>
    rw [hres] at hcs
    dsimp only [] at hcs
    rw [if_neg (by simp [hne])] at hcs
    rw [if_neg hne] at hcs
    refine ⟨o, rfl, ?_⟩
    injection hcs with hcs
    injection hcs with h1 h2
    exact ⟨h1.symm, by rw [← h2], by rw [← h2]⟩

theorem createSlug_node_inv (t : Refl) (pol : ReflectionKind → Bool) (σ : RouterState)
    (p : List Nat) (s : String) (σ' : RouterState)
    (hcs : createSlug t pol σ p none = .ok (s, σ')) :
    ∃ o, _getReflectionWithDocument t pol p = .ok o ∧
      ((p = o ∧ s = "" ∧ σ' = σ) ∨
        (p ≠ o ∧ ∃ parts, slugParts t o p = .ok parts ∧
          ((lookupA ((lookupA σ.slugs o).getD []) p = some s ∧
              σ' = ⟨setA σ.sluggers o ((lookupA σ.sluggers o).getD seedSlugger),
                setA σ.slugs o (setA ((lookupA σ.slugs o).getD []) p s)⟩) ∨
            (lookupA ((lookupA σ.slugs o).getD []) p = none ∧
              s = (((lookupA σ.sluggers o).getD seedSlugger).slug (joinSep '-' parts)).1 ∧
              σ' = ⟨setA σ.sluggers o
                      (((lookupA σ.sluggers o).getD seedSlugger).slug (joinSep '-' parts)).2,
                setA σ.slugs o (setA ((lookupA σ.slugs o).getD []) p s)⟩)))) := by
  unfold createSlug at hcs
  cases hres : _getReflectionWithDocument t pol p with
  | error e =>
    rw [hres] at hcs
    simp at hcs
  | ok o =>
    rw [hres] at hcs
    dsimp only [] at hcs
    refine ⟨o, rfl, ?_⟩
    by_cases hpo : p = o
    · rw [if_pos ⟨hpo, Or.inl rfl⟩] at hcs
      injection hcs with hcs
      injection hcs with h1 h2
      exact Or.inl ⟨hpo, h1.symm, h2.symm⟩
    · rw [if_neg (by simp [hpo])] at hcs
      unfold createSlugHierarchy at hcs
      refine Or.inr ⟨hpo, ?_⟩
      cases hsp : slugParts t o p with
      | error e =>
        rw [hsp] at hcs
        simp at hcs
      | ok parts =>
        rw [hsp] at hcs
        dsimp only [] at hcs
        refine ⟨parts, rfl, ?_⟩
        cases hm : lookupA ((lookupA σ.slugs o).getD []) p with
        | some sm =>
          rw [hm] at hcs
          injection hcs with hcs
          injection hcs with h1 h2
          subst h1
          exact Or.inl ⟨rfl, h2.symm⟩
        | none =>
          rw [hm] at hcs
          dsimp only [] at hcs
          injection hcs with hcs
          injection hcs with h1 h2
          subst h1
          exact Or.inr ⟨rfl, rfl, h2.symm⟩

theorem createLink_state (t : Refl) (pol : ReflectionKind → Bool) (σ : RouterState)
    (fr dst : List Nat) (r : String) (σ' : RouterState)
    (h : createLink t pol σ fr dst = .ok (r, σ')) :
    ∃ s', createSlug t pol σ dst none = .ok (s', σ') := by
  unfold createLink at h
  cases h1 : getDocumentName t pol fr with
  | error e => rw [h1] at h; simp at h
  | ok fromPage =>
    rw [h1] at h
    dsimp only [] at h
    cases h2 : getDocumentName t pol dst with
    | error e => rw [h2] at h; simp at h
    | ok toPage =>
      rw [h2] at h
      dsimp only [] at h
      cases h3 : createSlug t pol σ dst none with
      | error e => rw [h3] at h; simp at h
      | ok rr =>
        rw [h3] at h
        dsimp only [] at h
        injection h with h
        injection h with hh1 hh2
        exact ⟨rr.1, by rw [← hh2]⟩

/-! ### Memo persistence -/

theorem createSlug_none_preserves_memo (t : Refl) (pol : ReflectionKind → Bool)
    (σ : RouterState) (q : List Nat) (r : String) (σ' : RouterState)
    (o p : List Nat) (s : String)
    (hcs : createSlug t pol σ q none = .ok (r, σ'))
    (hm : MemoAt σ o p s) : MemoAt σ' o p s := by
  obtain ⟨memo, hmemo, hlook⟩ := hm
  · obtain ⟨o', _, hcase⟩ := createSlug_node_inv t pol σ q r σ' hcs
    rcases hcase with ⟨_, _, rfl⟩ | ⟨hqo, parts, hsp, ⟨hl, rfl⟩ | ⟨hl, hr, rfl⟩⟩
    · exact ⟨memo, hmemo, hlook⟩
    · by_cases hoo : o = o'
      · subst hoo
        rw [hmemo] at hl ⊢
        simp only [Option.getD_some] at hl ⊢
        refine ⟨setA memo q r, by simpa using lookupA_setA_self _ _ _, ?_⟩
        by_cases hpq : p = q
        · subst hpq
          rw [hl] at hlook
          injection hlook with hlook
          rw [hlook]
          exact lookupA_setA_self _ _ _
        · rw [lookupA_setA_ne _ _ _ _ hpq]
          exact hlook
      · refine ⟨memo, ?_, hlook⟩
        simpa [lookupA_setA_ne _ _ _ _ hoo] using hmemo
    · by_cases hoo : o = o'
      · subst hoo
        rw [hmemo] at hl ⊢
        simp only [Option.getD_some] at hl ⊢
        refine ⟨setA memo q r, by simpa using lookupA_setA_self _ _ _, ?_⟩
        by_cases hpq : p = q
        · subst hpq
          rw [hl] at hlook
          exact Option.noConfusion hlook
        · rw [lookupA_setA_ne _ _ _ _ hpq]
          exact hlook
      · refine ⟨memo, ?_, hlook⟩
        simpa [lookupA_setA_ne _ _ _ _ hoo] using hmemo

theorem createSlug_preserves_memo (t : Refl) (pol : ReflectionKind → Bool) (σ : RouterState)
    (q : List Nat) (hdr : Option String) (r : String) (σ' : RouterState)
    (o p : List Nat) (s : String)
    (hcs : createSlug t pol σ q hdr = .ok (r, σ'))
    (hm : MemoAt σ o p s) : MemoAt σ' o p s := by
  cases hdr with
  | some hh =>
    by_cases hhe : hh = ""
    · subst hhe
      rw [createSlug_empty_header] at hcs
      exact createSlug_none_preserves_memo t pol σ q r σ' o p s hcs hm
    · obtain ⟨memo, hmemo, hlook⟩ := hm
      obtain ⟨o', _, _, _, hslugs⟩ := createSlug_header_inv t pol σ q hh r σ' hhe hcs
      exact ⟨memo, by rw [hslugs]; exact hmemo, hlook⟩
  | none => exact createSlug_none_preserves_memo t pol σ q r σ' o p s hcs hm

theorem runOp_preserves_memo (t : Refl) (pol : ReflectionKind → Bool) (σ σ' : RouterState)
    (op : Op) (o p : List Nat) (s : String)
    (hrun : runOp t pol σ op = .ok σ') (hm : MemoAt σ o p s) : MemoAt σ' o p s := by
  cases op with
  | slugNode q =>
    simp only [runOp, Except.map] at hrun
    cases hcs : createSlug t pol σ q none with
    | error e => rw [hcs] at hrun; simp at hrun
    | ok rr =>
      rw [hcs] at hrun
      injection hrun with hrun
      rw [← hrun]
      exact createSlug_preserves_memo t pol σ q none rr.1 rr.2 o p s (by rw [hcs]) hm
  | slugHeader q hh =>
    simp only [runOp, Except.map] at hrun
    cases hcs : createSlug t pol σ q (some hh) with
    | error e => rw [hcs] at hrun; simp at hrun
    | ok rr =>
      rw [hcs] at hrun
      injection hrun with hrun
      rw [← hrun]
      exact createSlug_preserves_memo t pol σ q (some hh) rr.1 rr.2 o p s (by rw [hcs]) hm
  | link q1 q2 =>
    simp only [runOp, Except.map] at hrun
    cases hcl : createLink t pol σ q1 q2 with
    | error e => rw [hcl] at hrun; simp at hrun
    | ok rr =>
      rw [hcl] at hrun
      injection hrun with hrun
      rw [← hrun]
      obtain ⟨s', hcs⟩ := createLink_state t pol σ q1 q2 rr.1 rr.2 (by rw [hcl])
      exact createSlug_preserves_memo t pol σ q2 none s' rr.2 o p s hcs hm
  | assetLink q a =>
    simp only [runOp, Except.map] at hrun
    unfold createAssetLink at hrun
    cases h1 : _getReflectionWithDocument t pol q with
    | error e => rw [h1] at hrun; simp at hrun
    | ok oo =>
      rw [h1] at hrun
      dsimp only [] at hrun
      cases h2 : getDocumentName t pol oo with
      | error e => rw [h2] at hrun; simp at hrun
      | ok d =>
        rw [h2] at hrun
        injection hrun with hrun
        rw [← hrun]
        exact hm
  | mediaLink q m =>
    simp only [runOp, Except.map] at hrun
    unfold createMediaLink at hrun
    cases h1 : _getReflectionWithDocument t pol q with
    | error e => rw [h1] at hrun; simp at hrun
    | ok oo =>
      rw [h1] at hrun
      dsimp only [] at hrun
      cases h2 : getDocumentName t pol oo with
      | error e => rw [h2] at hrun; simp at hrun
      | ok d =>
        rw [h2] at hrun
        injection hrun with hrun
        rw [← hrun]
        exact hm
  | docName q =>
    simp only [runOp, getDocumentNameS, Except.map] at hrun
    cases h1 : getDocumentName t pol q with
    | error e => rw [h1] at hrun; simp at hrun
    | ok d =>
      rw [h1] at hrun
      injection hrun with hrun
      rw [← hrun]
      exact hm

theorem runOps_preserves_memo (t : Refl) (pol : ReflectionKind → Bool) :
    ∀ (ops : List Op) (σ σ' : RouterState) (o p : List Nat) (s : String),
      runOps t pol σ ops = .ok σ' → MemoAt σ o p s → MemoAt σ' o p s
  | [], σ, σ', o, p, s, hrun, hm => by
    simp only [runOps] at hrun
    injection hrun with hrun
    rw [← hrun]
    exact hm
  | op :: ops, σ, σ', o, p, s, hrun, hm => by
    simp only [runOps] at hrun
    cases h1 : runOp t pol σ op with
    | error e => rw [h1] at hrun; simp at hrun
    | ok σ1 =>
      rw [h1] at hrun
      exact runOps_preserves_memo t pol ops σ1 σ' o p s hrun
        (runOp_preserves_memo t pol σ σ1 op o p s h1 hm)

theorem createSlug_sets_memo (t : Refl) (pol : ReflectionKind → Bool) (σ : RouterState)
    (p : List Nat) (s : String) (σ' : RouterState) (o : List Nat)
    (hcs : createSlug t pol σ p none = .ok (s, σ'))
    (ho : _getReflectionWithDocument t pol p = .ok o) (hpo : p ≠ o) :
    MemoAt σ' o p s := by
  obtain ⟨o', ho', hcase⟩ := createSlug_node_inv t pol σ p s σ' hcs
  rw [ho] at ho'
  injection ho' with ho'
  subst ho'
  rcases hcase with ⟨hpo', _, _⟩ | ⟨_, parts, hsp, ⟨hl, rfl⟩ | ⟨hl, hr, rfl⟩⟩
  · exact absurd hpo' hpo
  · exact ⟨setA ((lookupA σ.slugs o).getD []) p s, by simpa using lookupA_setA_self _ _ _,
      lookupA_setA_self _ _ _⟩
  · exact ⟨setA ((lookupA σ.slugs o).getD []) p s, by simpa using lookupA_setA_self _ _ _,
      lookupA_setA_self _ _ _⟩

theorem createSlug_reads_memo (t : Refl) (pol : ReflectionKind → Bool) (σ : RouterState)
    (p : List Nat) (s sm : String) (σ' : RouterState) (o : List Nat)
    (hcs : createSlug t pol σ p none = .ok (s, σ'))
    (ho : _getReflectionWithDocument t pol p = .ok o) (hpo : p ≠ o)
    (hm : MemoAt σ o p sm) : s = sm := by
  obtain ⟨o', ho', hcase⟩ := createSlug_node_inv t pol σ p s σ' hcs
  rw [ho] at ho'
  injection ho' with ho'
  subst ho'
  obtain ⟨memo, hmemo, hlook⟩ := hm
  rcases hcase with ⟨hpo', _, _⟩ | ⟨_, parts, hsp, ⟨hl, _⟩ | ⟨hl, _, _⟩⟩
  · exact absurd hpo' hpo
  · rw [hmemo] at hl
    simp only [Option.getD_some] at hl
    rw [hl] at hlook
    exact Option.some.inj hlook
  · rw [hmemo] at hl
    simp only [Option.getD_some] at hl
    rw [hl] at hlook
    exact Option.noConfusion hlook

/-! ### C3 and C4 -/

/-- C3: the query operations are idempotent. A repeated `getDocumentName`
query returns the identical string, and a header-less `createSlug` query
repeated after any interleaved successful operations (other nodes, headers,
links, name queries) returns the string of the first call. -/
theorem C3_idempotent (t : Refl) (pol : ReflectionKind → Bool) (σ0 : RouterState)
    (n : List Nat) (s1 : String) (σ1 : RouterState) (ops : List Op) (σ2 : RouterState)
    (s2 : String) (σ3 : RouterState) (d1 d2 : String) (σa σb : RouterState)
    (h1 : createSlug t pol σ0 n none = .ok (s1, σ1))
    (hops : runOps t pol σ1 ops = .ok σ2)
    (h2 : createSlug t pol σ2 n none = .ok (s2, σ3))
    (hd1 : getDocumentNameS t pol σ0 n = .ok (d1, σa))
    (hd2 : getDocumentNameS t pol σ2 n = .ok (d2, σb)) :
    s2 = s1 ∧ d2 = d1 := by
  constructor
  · obtain ⟨o, ho, hcase⟩ := createSlug_node_inv t pol σ0 n s1 σ1 h1
    obtain ⟨o2, ho2, hcase2⟩ := createSlug_node_inv t pol σ2 n s2 σ3 h2
    rcases hcase with ⟨hno, hs1, hσ⟩ | ⟨hno, _, _, _⟩
    · subst hσ
      rcases hcase2 with ⟨_, hs2, _⟩ | ⟨hno2, _, _, _⟩
      · rw [hs1, hs2]
      · rw [ho] at ho2
        injection ho2 with ho2
        exact absurd (ho2 ▸ hno) hno2
    · have hmem1 : MemoAt σ1 o n s1 := createSlug_sets_memo t pol σ0 n s1 σ1 o h1 ho hno
      have hmem2 : MemoAt σ2 o n s1 := runOps_preserves_memo t pol ops σ1 σ2 o n s1 hops hmem1
      exact createSlug_reads_memo t pol σ2 n s2 s1 σ3 o h2 ho hno hmem2
  · unfold getDocumentNameS at hd1 hd2
    cases hg : getDocumentName t pol n with
    | error e =>
      rw [hg] at hd1
      simp [Except.map] at hd1
    | ok d =>
      rw [hg] at hd1 hd2
      simp only [Except.map] at hd1 hd2
      injection hd1 with hd1
      injection hd2 with hd2
      injection hd1 with hd1 _
      injection hd2 with hd2 _
      rw [← hd1, ← hd2]

/-- C4 counterexample: with the empty header text, two consecutive
`createSlug(bar, "")` calls both return the memoised node-identity slug
`bar` — the source's `!header` / `if (header)` guards treat the empty
string as no header, so the claim fails at the header text `""`. -/
theorem C4_counterexample :
    slugTwiceWithHeader demoTree hasOwnDocument initialState [0, 0, 0] "" =
      .ok ("bar", "bar") ∧
    slugTwiceWithHeader demoTree hasOwnDocument initialState [] "" = .ok ("", "") :=
  ⟨rfl, rfl⟩

/-- C4 amended: a header-bearing slug query with a non-empty header text is
never memoised; two consecutive calls with the identical non-empty header
text always return two different strings (the empty header text is falsy in
the source and acts as a header-less call). -/
theorem C4_header_fresh (t : Refl) (pol : ReflectionKind → Bool) (σ : RouterState)
    (p : List Nat) (h : String) (s1 s2 : String) (σ1 σ2 : RouterState)
    (hne : h ≠ "")
    (h1 : createSlug t pol σ p (some h) = .ok (s1, σ1))
    (h2 : createSlug t pol σ1 p (some h) = .ok (s2, σ2)) : s1 ≠ s2 := by
  obtain ⟨o, ho, hs1, hslg1, _⟩ := createSlug_header_inv t pol σ p h s1 σ1 hne h1
  obtain ⟨o2, ho2, hs2, _, _⟩ := createSlug_header_inv t pol σ1 p h s2 σ2 hne h2
  rw [ho] at ho2
  injection ho2 with ho2
  subst ho2
  have hst : (lookupA σ1.sluggers o).getD seedSlugger =
      (((lookupA σ.sluggers o).getD seedSlugger).slug h).2 := by
    rw [hslg1, lookupA_setA_self]
    rfl
  intro heq
  have hmem : (lookupA ((lookupA σ1.sluggers o).getD seedSlugger).seen s1).isSome := by
    rw [hst, hs1]
    rw [slug_self_mem]
    rfl
  have hfresh := slug_fresh ((lookupA σ1.sluggers o).getD seedSlugger) h
  rw [← hs2] at hfresh
  rw [heq] at hmem
  exact hfresh hmem

/-- C4 witness: two consecutive `createSlug(Project, "Example")` calls on the
scenario tree yield `example`, then `example-1`. -/
theorem C4_header_fresh_witness : ("example" : String) ≠ "example-1" :=
  C4_header_fresh demoTree hasOwnDocument initialState [] "Example" "example" "example-1"
    (stateAfter (createSlug demoTree hasOwnDocument initialState [] (some "Example")))
    (stateAfter (createSlug demoTree hasOwnDocument
      (stateAfter (createSlug demoTree hasOwnDocument initialState [] (some "Example")))
      [] (some "Example")))
    (by decide) rfl rfl

/-! ### Totality under a well-formed tree -/

theorem getAt_cons_inv (t : Refl) (i : Nat) (p : List Nat) (r : Refl)
    (h : getAt t (i :: p) = some r) :
    ∃ rp, getAt t p = some rp ∧ rp.children[i]? = some r := by
  unfold getAt at h
  exact Option.bind_eq_some.1 h

theorem resolve_self (t : Refl) (pol : ReflectionKind → Bool) (p : List Nat) (r : Refl)
    (hg : getAt t p = some r) (hpol : pol r.kind = true) :
    _getReflectionWithDocument t pol p = .ok p := by
  cases p with
  | nil =>
    unfold _getReflectionWithDocument
    unfold getAt at hg
    injection hg with hg
    rw [show kindAt t [] = some t.kind from rfl, hg]
    dsimp only []
    rw [if_pos hpol]
  | cons i q =>
    unfold _getReflectionWithDocument
    rw [show kindAt t (i :: q) = (getAt t (i :: q)).map Refl.kind from rfl, hg]
    dsimp only [Option.map_some']
    rw [if_pos hpol]

theorem resolve_total (t : Refl) (pol : ReflectionKind → Bool)
    (hroot : pol t.kind = true) :
    ∀ (p : List Nat) (r : Refl), getAt t p = some r →
      ∃ o ro, _getReflectionWithDocument t pol p = .ok o ∧ getAt t o = some ro ∧
        pol ro.kind = true
  | [], r, hg => by
    unfold getAt at hg
    injection hg with hg
    have hpolr : pol r.kind = true := by rw [← hg]; exact hroot
    have hgr : getAt t [] = some r := by unfold getAt; rw [hg]
    exact ⟨[], r, resolve_self t pol [] r hgr hpolr, hgr, hpolr⟩
  | i :: q, r, hg => by
    by_cases hpol : pol r.kind = true
    · exact ⟨i :: q, r, resolve_self t pol (i :: q) r hg hpol, hg, hpol⟩
    · obtain ⟨rq, hrq, _⟩ := getAt_cons_inv t i q r hg
      obtain ⟨o, ro, hres, hgo, hpo⟩ := resolve_total t pol hroot q rq hrq
      refine ⟨o, ro, ?_, hgo, hpo⟩
      unfold _getReflectionWithDocument
      rw [show kindAt t (i :: q) = (getAt t (i :: q)).map Refl.kind from rfl, hg]
      dsimp only [Option.map_some']
      rw [if_neg (by simp [hpol])]
      exact hres

theorem pathParts_total (t : Refl) :
    ∀ (p : List Nat) (r : Refl), getAt t p = some r →
      ∃ parts, pathParts t p = some parts
  | [], _, _ => ⟨[], rfl⟩
  | i :: q, r, hg => by
    obtain ⟨rq, hrq, _⟩ := getAt_cons_inv t i q r hg
    obtain ⟨rest, hrest⟩ := pathParts_total t q rq hrq
    refine ⟨rest ++ [_getSafeFilename r.name], ?_⟩
    unfold pathParts
    rw [hrest, hg]
    rfl

theorem getDocumentName_total (t : Refl) (pol : ReflectionKind → Bool)
    (hroot : pol t.kind = true) (hproj : t.kind = .Project)
    (p : List Nat) (r : Refl) (hg : getAt t p = some r) :
    ∃ s, getDocumentName t pol p = .ok s := by
  obtain ⟨o, ro, hres, hgo, _⟩ := resolve_total t pol hroot p r hg
  obtain ⟨parts, hparts⟩ := pathParts_total t o ro hgo
  unfold getDocumentName
  rw [hres]
  dsimp only []
  rw [hparts, hgo]
  dsimp only []
  rw [if_pos hproj]
  by_cases hb : (_anyChildrenHaveOwnDocument t pol o || decide (ro.kind = .Project)) = true
  · rw [if_pos hb]
    exact ⟨_, rfl⟩
  · rw [if_neg hb]
    exact ⟨_, rfl⟩

theorem slugParts_total (t : Refl) (pol : ReflectionKind → Bool) :
    ∀ (p o : List Nat) (r : Refl), _getReflectionWithDocument t pol p = .ok o →
      getAt t p = some r → ∃ parts, slugParts t o p = .ok parts
  | [], o, r, hres, hg => by
    unfold _getReflectionWithDocument at hres
    unfold getAt at hg
    injection hg with hg
    rw [show kindAt t [] = some t.kind from rfl] at hres
    dsimp only [] at hres
    by_cases hpol : pol t.kind = true
    · rw [if_pos hpol] at hres
      injection hres with hres
      refine ⟨[], ?_⟩
      unfold slugParts
      rw [if_pos hres]
    · rw [if_neg (by simp [hpol])] at hres
      exact Except.noConfusion hres
  | i :: q, o, r, hres, hg => by
    by_cases heq : i :: q = o
    · refine ⟨[], ?_⟩
      unfold slugParts
      rw [if_pos heq]
    · unfold _getReflectionWithDocument at hres
      rw [show kindAt t (i :: q) = (getAt t (i :: q)).map Refl.kind from rfl, hg] at hres
      dsimp only [Option.map_some'] at hres
      by_cases hpol : pol r.kind = true
      · rw [if_pos hpol] at hres
        injection hres with hres
        exact absurd hres heq
      · rw [if_neg (by simp [hpol])] at hres
        obtain ⟨rq, hrq, _⟩ := getAt_cons_inv t i q r hg
        obtain ⟨rest, hrest⟩ := slugParts_total t pol q o rq hres hrq
        refine ⟨rest ++ if r.kind = .Signature then [] else [r.name], ?_⟩
        unfold slugParts
        rw [if_neg heq, hrest, hg]

theorem createSlugHierarchy_total (t : Refl) (pol : ReflectionKind → Bool) (σ : RouterState)
    (p o : List Nat) (st0 : Slugger) (parts : List String)
    (hparts : slugParts t o p = .ok parts) :
    ∃ out, createSlugHierarchy t pol σ p o st0 = .ok out := by
  unfold createSlugHierarchy
  rw [hparts]
  dsimp only []
  cases hm : lookupA ((lookupA σ.slugs o).getD []) p with
  | some sm => exact ⟨_, rfl⟩
  | none => exact ⟨_, rfl⟩

theorem createSlug_total (t : Refl) (pol : ReflectionKind → Bool) (σ : RouterState)
    (p : List Nat) (r : Refl) (hdr : Option String)
    (hroot : pol t.kind = true) (hg : getAt t p = some r) :
    ∃ out, createSlug t pol σ p hdr = .ok out := by
  obtain ⟨o, ro, hres, hgo, _⟩ := resolve_total t pol hroot p r hg
  obtain ⟨parts, hparts⟩ := slugParts_total t pol p o r hres hg
  unfold createSlug
  rw [hres]
  dsimp only []
  by_cases hearly : p = o ∧ (hdr = none ∨ hdr = some "")
  · rw [if_pos hearly]
    exact ⟨_, rfl⟩
  · rw [if_neg hearly]
    cases hdr with
    | some h =>
      dsimp only []
      by_cases hh : h = ""
      · rw [if_pos hh]
        exact createSlugHierarchy_total t pol σ p o _ parts hparts
      · rw [if_neg hh]
        exact ⟨_, rfl⟩
    | none => exact createSlugHierarchy_total t pol σ p o _ parts hparts

theorem createLink_total (t : Refl) (pol : ReflectionKind → Bool) (σ : RouterState)
    (p q : List Nat) (rp rq : Refl)
    (hroot : pol t.kind = true) (hproj : t.kind = .Project)
    (hgp : getAt t p = some rp) (hgq : getAt t q = some rq) :
    ∃ out, createLink t pol σ p q = .ok out := by
  obtain ⟨s1, hd1⟩ := getDocumentName_total t pol hroot hproj p rp hgp
  obtain ⟨s2, hd2⟩ := getDocumentName_total t pol hroot hproj q rq hgq
  obtain ⟨out, hcs⟩ := createSlug_total t pol σ q rq none hroot hgq
  unfold createLink
  rw [hd1]
  dsimp only []
  rw [hd2]
  dsimp only []
  rw [hcs]
  exact ⟨_, rfl⟩

theorem createAssetLink_total (t : Refl) (pol : ReflectionKind → Bool) (σ : RouterState)
    (p : List Nat) (r : Refl) (a : String)
    (hroot : pol t.kind = true) (hproj : t.kind = .Project)
    (hg : getAt t p = some r) :
    ∃ out, createAssetLink t pol σ p a = .ok out := by
  obtain ⟨o, ro, hres, hgo, _⟩ := resolve_total t pol hroot p r hg
  obtain ⟨s, hd⟩ := getDocumentName_total t pol hroot hproj o ro hgo
  unfold createAssetLink
  rw [hres]
  dsimp only []
  rw [hd]
  exact ⟨_, rfl⟩

theorem createMediaLink_total (t : Refl) (pol : ReflectionKind → Bool) (σ : RouterState)
    (p : List Nat) (r : Refl) (m : String)
    (hroot : pol t.kind = true) (hproj : t.kind = .Project)
    (hg : getAt t p = some r) :
    ∃ out, createMediaLink t pol σ p m = .ok out := by
  obtain ⟨o, ro, hres, hgo, _⟩ := resolve_total t pol hroot p r hg
  obtain ⟨s, hd⟩ := getDocumentName_total t pol hroot hproj o ro hgo
  unfold createMediaLink
  rw [hres]
  dsimp only []
  rw [hd]
  exact ⟨_, rfl⟩

/-- C8: under the precondition that the tree is well-formed — the policy
accepts the root (so every node resolves to a document owner, invariant I1)
and the root is the Project — no assertion fires: every router operation
returns normally on every node. The error type `Err` has, by construction,
exactly the two fatal conditions `brokenAncestry` and `nonProjectRoot`. -/
theorem C8_no_failures (t : Refl) (pol : ReflectionKind → Bool) (σ : RouterState)
    (p q : List Nat) (rp rq : Refl) (hdr : Option String) (a m : String)
    (hroot : pol t.kind = true) (hproj : t.kind = .Project)
    (hgp : getAt t p = some rp) (hgq : getAt t q = some rq) :
    (getDocumentName t pol p).isOk = true ∧
    (createSlug t pol σ p hdr).isOk = true ∧
    (createLink t pol σ p q).isOk = true ∧
    (createAssetLink t pol σ p a).isOk = true ∧
    (createMediaLink t pol σ p m).isOk = true := by
  obtain ⟨s, hd⟩ := getDocumentName_total t pol hroot hproj p rp hgp
  obtain ⟨o1, hcs⟩ := createSlug_total t pol σ p rp hdr hroot hgp
  obtain ⟨o2, hcl⟩ := createLink_total t pol σ p q rp rq hroot hproj hgp hgq
  obtain ⟨o3, hca⟩ := createAssetLink_total t pol σ p rp a hroot hproj hgp
  obtain ⟨o4, hcm⟩ := createMediaLink_total t pol σ p rp m hroot hproj hgp
  rw [hd, hcs, hcl, hca, hcm]
  exact ⟨rfl, rfl, rfl, rfl, rfl⟩

/-- C8 witness: every operation returns normally at concrete nodes of the
scenario tree. -/
theorem C8_no_failures_witness :
    (getDocumentName demoTree hasOwnDocument [0, 0]).isOk = true ∧
    (createSlug demoTree hasOwnDocument initialState [0, 0] (some "H")).isOk = true ∧
    (createLink demoTree hasOwnDocument initialState [0, 0] []).isOk = true ∧
    (createAssetLink demoTree hasOwnDocument initialState [0, 0] "x.png").isOk = true ∧
    (createMediaLink demoTree hasOwnDocument initialState [0, 0] "y.png").isOk = true :=
  C8_no_failures demoTree hasOwnDocument initialState [0, 0] []
    (.node .Class "Foo" [.node .Method "bar" []]) demoTree (some "H") "x.png" "y.png"
    rfl rfl rfl rfl

/-! ### C9: the single-page router variant -/

theorem minimal_resolve (t : Refl) (hproj : t.kind = .Project)
    (huniq : ∀ (i : Nat) (q : List Nat) (r : Refl), getAt t (i :: q) = some r →
      r.kind ≠ .Project) :
    ∀ (p : List Nat) (r : Refl), getAt t p = some r →
      _getReflectionWithDocument t minimalHasOwnDocument p = .ok []
  | [], r, hg => by
    unfold _getReflectionWithDocument
    rw [show kindAt t [] = some t.kind from rfl]
    dsimp only []
    rw [if_pos (by simp [minimalHasOwnDocument, hproj])]
  | i :: q, r, hg => by
    unfold _getReflectionWithDocument
    rw [show kindAt t (i :: q) = (getAt t (i :: q)).map Refl.kind from rfl, hg]
    dsimp only [Option.map_some']
    rw [if_neg (by simp [minimalHasOwnDocument, huniq i q r hg])]
    obtain ⟨rq, hrq, _⟩ := getAt_cons_inv t i q r hg
    exact minimal_resolve t hproj huniq q rq hrq

/-- C9: under the `MinimalThemeRouter` policy a node owns a page exactly when
it is the Project root, and every node's document name is `index.html` — the
whole tree collapses onto one page; all other operations are the same
functions instantiated with this policy. -/
theorem C9_minimal_router (t : Refl) (hproj : t.kind = .Project)
    (huniq : ∀ (i : Nat) (q : List Nat) (r : Refl), getAt t (i :: q) = some r →
      r.kind ≠ .Project) :
    (∀ (p : List Nat) (r : Refl), getAt t p = some r →
      (minimalHasOwnDocument r.kind = true ↔ p = [])) ∧
    (∀ (p : List Nat) (r : Refl), getAt t p = some r →
      getDocumentName t minimalHasOwnDocument p = .ok "index.html") := by
  constructor
  · intro p r hg
    cases p with
    | nil =>
      unfold getAt at hg
      injection hg with hg
      simp [minimalHasOwnDocument, ← hg, hproj]
    | cons i q =>
      simp [minimalHasOwnDocument, huniq i q r hg]
  · intro p r hg
    unfold getDocumentName
    rw [minimal_resolve t hproj huniq p r hg]
    dsimp only []
    rw [show pathParts t [] = some [] from rfl, show getAt t [] = some t from rfl]
    dsimp only []
    rw [if_pos hproj]
    rw [if_pos (by simp [hproj])]
    rfl

/-! ### The scenario tree's valid paths -/

theorem demoTree_getAt :
    ∀ (q : List Nat) (r : Refl), getAt demoTree q = some r →
      (q = [] ∧ r = demoTree) ∨
      (q = [0] ∧ r = .node .Module "core" [.node .Class "Foo" [.node .Method "bar" []]]) ∨
      (q = [0, 0] ∧ r = .node .Class "Foo" [.node .Method "bar" []]) ∨
      (q = [0, 0, 0] ∧ r = .node .Method "bar" [])
  | [], r, hg => by
    unfold getAt at hg
    injection hg with hg
    exact Or.inl ⟨rfl, hg.symm⟩
  | i :: q, r, hg => by
    obtain ⟨rp, hrp, hchild⟩ := getAt_cons_inv demoTree i q r hg
    rcases demoTree_getAt q rp hrp with ⟨hq, hr⟩ | ⟨hq, hr⟩ | ⟨hq, hr⟩ | ⟨hq, hr⟩ <;>
      subst hq <;> subst hr <;>
      match i with
      | 0 =>
        first
        | (simp [demoTree, Refl.children] at hchild
           refine Or.inr ?_
           first
           | exact Or.inl ⟨rfl, hchild.symm⟩
           | exact Or.inr (Or.inl ⟨rfl, hchild.symm⟩)
           | exact Or.inr (Or.inr ⟨rfl, hchild.symm⟩))
        | simp [demoTree, Refl.children] at hchild
      | _ + 1 => simp [demoTree, Refl.children] at hchild

theorem demoTree_nonroot_not_project (i : Nat) (q : List Nat) (r : Refl)
    (h : getAt demoTree (i :: q) = some r) : r.kind ≠ .Project := by
  rcases demoTree_getAt (i :: q) r h with ⟨hq, _⟩ | ⟨_, hr⟩ | ⟨_, hr⟩ | ⟨_, hr⟩
  · exact absurd hq (List.cons_ne_nil i q)
  · subst hr; decide
  · subst hr; decide
  · subst hr; decide

/-- C9 witness: on the scenario tree, the minimal policy grants a page only
to the root, and the Class node's document name collapses to `index.html`. -/
theorem C9_minimal_router_witness :
    (minimalHasOwnDocument (Refl.kind demoTree) = true ↔ ([] : List Nat) = []) ∧
    getDocumentName demoTree minimalHasOwnDocument [0, 0] = .ok "index.html" :=
  ⟨(C9_minimal_router demoTree rfl demoTree_nonroot_not_project).1 [] demoTree rfl,
    (C9_minimal_router demoTree rfl demoTree_nonroot_not_project).2 [0, 0]
      (.node .Class "Foo" [.node .Method "bar" []]) rfl⟩

/-! ### C10: Signature-only chains produce empty anchors -/

theorem resolve_drop (t : Refl) (pol : ReflectionKind → Bool) :
    ∀ (p o : List Nat), _getReflectionWithDocument t pol p = .ok o → ∃ k, o = p.drop k
  | [], o, h => by
    unfold _getReflectionWithDocument at h
    cases hk : kindAt t [] with
    | none => rw [hk] at h; exact Except.noConfusion h
    | some k =>
      rw [hk] at h
      dsimp only [] at h
      by_cases hpol : pol k = true
      · rw [if_pos hpol] at h
        injection h with h
        exact ⟨0, h.symm⟩
      · rw [if_neg (by simp [hpol])] at h
        exact Except.noConfusion h
  | i :: q, o, h => by
    unfold _getReflectionWithDocument at h
    cases hk : kindAt t (i :: q) with
    | none => rw [hk] at h; exact Except.noConfusion h
    | some k =>
      rw [hk] at h
      dsimp only [] at h
      by_cases hpol : pol k = true
      · rw [if_pos hpol] at h
        injection h with h
        exact ⟨0, h.symm⟩
      · rw [if_neg (by simp [hpol])] at h
        obtain ⟨k', hk'⟩ := resolve_drop t pol q o h
        exact ⟨k' + 1, hk'⟩

theorem resolve_pol (t : Refl) (pol : ReflectionKind → Bool) :
    ∀ (p o : List Nat), _getReflectionWithDocument t pol p = .ok o →
      ∃ ro, getAt t o = some ro ∧ pol ro.kind = true
  | [], o, h => by
    unfold _getReflectionWithDocument at h
    rw [show kindAt t [] = some t.kind from rfl] at h
    dsimp only [] at h
    by_cases hpol : pol t.kind = true
    · rw [if_pos hpol] at h
      injection h with h
      exact ⟨t, by rw [← h]; rfl, hpol⟩
    · rw [if_neg (by simp [hpol])] at h
      exact Except.noConfusion h
  | i :: q, o, h => by
    unfold _getReflectionWithDocument at h
    cases hg : getAt t (i :: q) with
    | none =>
      rw [show kindAt t (i :: q) = (getAt t (i :: q)).map Refl.kind from rfl, hg] at h
      exact Except.noConfusion h
    | some r =>
      rw [show kindAt t (i :: q) = (getAt t (i :: q)).map Refl.kind from rfl, hg] at h
      dsimp only [Option.map_some'] at h
      by_cases hpol : pol r.kind = true
      · rw [if_pos hpol] at h
        injection h with h
        exact ⟨r, by rw [← h]; exact hg, hpol⟩
      · rw [if_neg (by simp [hpol])] at h
        exact resolve_pol t pol q o h

theorem getDocumentName_owner_eq (t : Refl) (pol : ReflectionKind → Bool)
    (n o : List Nat) (ho : _getReflectionWithDocument t pol n = .ok o) :
    getDocumentName t pol n = getDocumentName t pol o := by
  obtain ⟨ro, hgo, hpol⟩ := resolve_pol t pol n o ho
  unfold getDocumentName
  rw [ho, resolve_self t pol o ro hgo hpol]

theorem slugParts_sig (t : Refl) (o : List Nat) :
    ∀ (p : List Nat), (∃ k, o = p.drop k) →
      (∀ j, j < p.length - o.length → kindAt t (p.drop j) = some .Signature) →
      slugParts t o p = .ok []
  | [], hdrop, _ => by
    obtain ⟨k, hk⟩ := hdrop
    simp only [List.drop_nil] at hk
    unfold slugParts
    rw [if_pos hk.symm]
  | i :: q, hdrop, hsig => by
    by_cases heq : i :: q = o
    · unfold slugParts
      rw [if_pos heq]
    · obtain ⟨k, hk⟩ := hdrop
      have hkpos : k ≠ 0 := by
        intro h0
        rw [h0, List.drop_zero] at hk
        exact heq hk.symm
      have holen : o.length < (i :: q).length := by
        have := congrArg List.length hk
        rw [List.length_drop] at this
        simp only [List.length_cons] at this ⊢
        omega
      have hsig0 := hsig 0 (by omega)
      rw [List.drop_zero] at hsig0
      have hrest : slugParts t o q = .ok [] := by
        apply slugParts_sig t o q
        · refine ⟨k - 1, ?_⟩
          rw [hk]
          match k, hkpos with
          | k' + 1, _ => rfl
        · intro j hj
          have := hsig (j + 1) (by simp only [List.length_cons] at holen ⊢; omega)
          simpa using this
      cases hg : getAt t (i :: q) with
      | none =>
        rw [show kindAt t (i :: q) = (getAt t (i :: q)).map Refl.kind from rfl, hg] at hsig0
        exact Option.noConfusion hsig0
      | some r =>
        have hkind : r.kind = .Signature := by
          rw [show kindAt t (i :: q) = (getAt t (i :: q)).map Refl.kind from rfl, hg] at hsig0
          simpa using hsig0
        unfold slugParts
        rw [if_neg heq, hrest, hg]
        dsimp only []
        rw [if_pos hkind]
        rfl

/-- C10: when every node from `n` up to (but excluding) its page owner is
Signature-kind, the hierarchical label is empty; on a fresh page the
header-less slug is the empty string, and a link to `n` carries no anchor —
it is the same string as the link to the page itself. -/
theorem C10_signature_chain (t : Refl) (pol : ReflectionKind → Bool) (n o : List Nat)
    (fr : List Nat) (dfr dn : String) (σ : RouterState)
    (ho : _getReflectionWithDocument t pol n = .ok o) (hno : n ≠ o)
    (hsig : ∀ j, j < n.length - o.length → kindAt t (n.drop j) = some .Signature)
    (hslugger : lookupA σ.sluggers o = none) (hmemo : lookupA σ.slugs o = none)
    (hdfr : getDocumentName t pol fr = .ok dfr)
    (hdn : getDocumentName t pol n = .ok dn) :
    slugParts t o n = .ok [] ∧
    (∃ σ', createSlug t pol σ n none = .ok ("", σ')) ∧
    (createLink t pol σ fr n).map Prod.fst =
      .ok (posixRelative (posixDirname dfr) dn) ∧
    (createLink t pol σ fr o).map Prod.fst =
      .ok (posixRelative (posixDirname dfr) dn) := by
  have hdrop := resolve_drop t pol n o ho
  have hparts : slugParts t o n = .ok [] := slugParts_sig t o n hdrop hsig
  have hslug : createSlug t pol σ n none =
      .ok ("", ⟨setA σ.sluggers o (seedSlugger.slug (joinSep '-' [])).2,
        setA σ.slugs o (setA [] n (seedSlugger.slug (joinSep '-' [])).1)⟩) := by
    unfold createSlug
    rw [ho]
    dsimp only []
    rw [if_neg (by simp [hno])]
    unfold createSlugHierarchy
    rw [hparts]
    dsimp only []
    rw [hslugger, hmemo]
    dsimp only [Option.getD_none]
    rw [show lookupA ([] : List (List Nat × String)) n = none from rfl]
    dsimp only []
    rw [show (seedSlugger.slug (joinSep '-' [])).1 = "" from rfl]
  have hdo : getDocumentName t pol o = .ok dn := by
    rw [← getDocumentName_owner_eq t pol n o ho]
    exact hdn
  refine ⟨hparts, ⟨_, hslug⟩, ?_, ?_⟩
  · unfold createLink
    rw [hdfr]
    dsimp only []
    rw [hdn]
    dsimp only []
    rw [hslug]
    dsimp only []
    rw [if_neg (by simp)]
    simp [Except.map]
  · obtain ⟨ro, hgo, hpol⟩ := resolve_pol t pol n o ho
    have hso : createSlug t pol σ o none = .ok ("", σ) := by
      unfold createSlug
      rw [resolve_self t pol o ro hgo hpol]
      dsimp only []
      rw [if_pos ⟨rfl, Or.inl rfl⟩]
    unfold createLink
    rw [hdfr]
    dsimp only []
    rw [hdo]
    dsimp only []
    rw [hso]
    dsimp only []
    rw [if_neg (by simp)]
    simp [Except.map]

/-- C10 witness: in the tree Project → Class `C` → Signature `s`, the
header-less slug of the signature is empty and links to it look exactly like
links to the class page. -/
theorem C10_signature_chain_witness :
    slugParts sigTree [0] [0, 0] = .ok [] ∧
    (∃ σ', createSlug sigTree hasOwnDocument initialState [0, 0] none = .ok ("", σ')) ∧
    (createLink sigTree hasOwnDocument initialState [] [0, 0]).map Prod.fst =
      .ok (posixRelative (posixDirname "index.html") "Class.C.html") ∧
    (createLink sigTree hasOwnDocument initialState [] [0]).map Prod.fst =
      .ok (posixRelative (posixDirname "index.html") "Class.C.html") :=
  C10_signature_chain sigTree hasOwnDocument [0, 0] [0] [] "index.html" "Class.C.html"
    initialState rfl (by decide) (by decide) rfl rfl rfl rfl

/-! ### C2: uniqueness of document names -/

theorem safeFilename_chars (name : String) :
    ∀ c ∈ (_getSafeFilename name).data, goodChar c = true := by
  intro c hc
  unfold _getSafeFilename at hc
  rcases hname : name.data with _ | ⟨c0, cs⟩
  · rw [hname] at hc
    simp at hc
  · rw [hname] at hc
    rcases List.mem_cons.1 hc with h | h
    · rw [h]
      exact goodChar_head c0
    · obtain ⟨y, _, rfl⟩ := List.mem_map.1 h
      exact goodChar_sanitizeChar y

theorem goodChar_ne_slash (c : Char) (h : goodChar c = true) : c ≠ '/' := by
  intro heq
  subst heq
  exact absurd h (by decide)

theorem safe_no_slash (name : String) : '/' ∉ (_getSafeFilename name).data :=
  fun h => goodChar_ne_slash '/' (safeFilename_chars name '/' h) rfl

theorem kindString_no_slash (k : ReflectionKind) : '/' ∉ k.toKindString.data := by
  cases k <;> decide

theorem kindString_no_dot (k : ReflectionKind) : '.' ∉ k.toKindString.data := by
  cases k <;> decide

theorem kindString_ne_index (k : ReflectionKind) : k.toKindString ≠ "index" := by
  cases k <;> decide

theorem pathParts_cons (t : Refl) (i : Nat) (q : List Nat) (parts : List String)
    (h : pathParts t (i :: q) = some parts) :
    ∃ rest r, pathParts t q = some rest ∧ getAt t (i :: q) = some r ∧
      parts = rest ++ [_getSafeFilename r.name] := by
  unfold pathParts at h
  simp only [Option.bind_eq_bind, Option.bind_eq_some] at h
  obtain ⟨rest, hrest, h⟩ := h
  obtain ⟨r, hr, h⟩ := h
  injection h with h
  exact ⟨rest, r, hrest, hr, h.symm⟩

theorem pathParts_length (t : Refl) :
    ∀ (p : List Nat) (parts : List String), pathParts t p = some parts →
      parts.length = p.length
  | [], parts, h => by
    unfold pathParts at h
    injection h with h
    rw [← h]
    rfl
  | i :: q, parts, h => by
    obtain ⟨rest, r, hrest, _, rfl⟩ := pathParts_cons t i q parts h
    simp [pathParts_length t q rest hrest]

theorem pathParts_no_slash (t : Refl) :
    ∀ (p : List Nat) (parts : List String), pathParts t p = some parts →
      ∀ s ∈ parts, '/' ∉ s.data
  | [], parts, h => by
    unfold pathParts at h
    injection h with h
    rw [← h]
    simp
  | i :: q, parts, h => by
    obtain ⟨rest, r, hrest, _, rfl⟩ := pathParts_cons t i q parts h
    intro s hs
    rcases List.mem_append.1 hs with hs | hs
    · exact pathParts_no_slash t q rest hrest s hs
    · simp only [List.mem_singleton] at hs
      rw [hs]
      exact safe_no_slash r.name

theorem data_dot_shape (K s : String) :
    (K ++ "." ++ s ++ ".html").data = K.data ++ '.' :: (s.data ++ ".html".data) := by
  simp [String.data_append]

theorem leaf_inj (K1 K2 s1 s2 : String) (h1 : '.' ∉ K1.data) (h2 : '.' ∉ K2.data)
    (heq : K1 ++ "." ++ s1 ++ ".html" = K2 ++ "." ++ s2 ++ ".html") : K1 = K2 ∧ s1 = s2 := by
  have hd := congrArg String.data heq
  rw [data_dot_shape, data_dot_shape] at hd
  obtain ⟨hK, hs⟩ := sep_factor_inj _ _ _ _ h1 h2 hd
  refine ⟨String.ext hK, String.ext ?_⟩
  exact List.append_cancel_right hs

theorem leaf_no_slash (K s : String) (hK : '/' ∉ K.data) (hs : '/' ∉ s.data) :
    '/' ∉ (K ++ "." ++ s ++ ".html").data := by
  rw [data_dot_shape]
  intro hmem
  rcases List.mem_append.1 hmem with h | h
  · exact hK h
  · rcases List.mem_cons.1 h with h | h
    · exact absurd h (by decide)
    · rcases List.mem_append.1 h with h | h
      · exact hs h
      · exact absurd h (by decide)

theorem leaf_ne_index (K s : String) (hK : '.' ∉ K.data) (hne : K ≠ "index") :
    K ++ "." ++ s ++ ".html" ≠ "index.html" := by
  intro heq
  have hd := congrArg String.data heq
  rw [data_dot_shape] at hd
  have hidx : ("index.html" : String).data = "index".data ++ '.' :: "html".data := by decide
  rw [hidx] at hd
  obtain ⟨hK', _⟩ := sep_factor_inj _ _ _ _ hK (by decide) hd
  exact hne (String.ext hK')

theorem getDocumentName_own_inv (t : Refl) (pol : ReflectionKind → Bool) (p : List Nat)
    (r : Refl) (s : String)
    (hg : getAt t p = some r) (hown : pol r.kind = true) (hproj : t.kind = .Project)
    (hd : getDocumentName t pol p = .ok s) :
    ∃ parts, pathParts t p = some parts ∧
      (((_anyChildrenHaveOwnDocument t pol p || decide (r.kind = .Project)) = true ∧
          s = joinSep '/' (parts ++ ["index.html"])) ∨
        ((_anyChildrenHaveOwnDocument t pol p || decide (r.kind = .Project)) = false ∧
          s = joinSep '/' (parts.dropLast ++
            [r.kind.toKindString ++ "." ++ _getSafeFilename r.name ++ ".html"]))) := by
  unfold getDocumentName at hd
  rw [resolve_self t pol p r hg hown] at hd
  dsimp only [] at hd
  cases hpp : pathParts t p with
  | none =>
    rw [hpp] at hd
    simp at hd
  | some parts =>
    rw [hpp, hg] at hd
    dsimp only [] at hd
    rw [if_pos hproj] at hd
    refine ⟨parts, rfl, ?_⟩
    rcases hb : (_anyChildrenHaveOwnDocument t pol p || decide (r.kind = .Project)) with _ | _
    · rw [hb] at hd
      simp only [Bool.false_eq_true, if_false] at hd
      injection hd with hd
      exact Or.inr ⟨rfl, hd.symm⟩
    · rw [hb] at hd
      simp only [if_true] at hd
      injection hd with hd
      exact Or.inl ⟨rfl, hd.symm⟩

/-- C2 amended: for distinct document-owning nodes of a well-formed tree
whose nodes additionally have pairwise distinct sanitized names, the
generated document names are distinct. (Without the sanitized-name
hypothesis the claim fails: see the counterexample.) -/
theorem C2_unique_amended (t : Refl) (p1 p2 : List Nat) (r1 r2 : Refl) (s1 s2 : String)
    (hproj : t.kind = .Project)
    (hg1 : getAt t p1 = some r1) (hg2 : getAt t p2 = some r2)
    (hown1 : hasOwnDocument r1.kind = true) (hown2 : hasOwnDocument r2.kind = true)
    (hinj : ∀ (q1 q2 : List Nat) (w1 w2 : Refl), getAt t q1 = some w1 →
      getAt t q2 = some w2 →
      _getSafeFilename w1.name = _getSafeFilename w2.name → q1 = q2)
    (hne : p1 ≠ p2)
    (hd1 : getDocumentName t hasOwnDocument p1 = .ok s1)
    (hd2 : getDocumentName t hasOwnDocument p2 = .ok s2) : s1 ≠ s2 := by
  obtain ⟨parts1, hpp1, hcase1⟩ :=
    getDocumentName_own_inv t hasOwnDocument p1 r1 s1 hg1 hown1 hproj hd1
  obtain ⟨parts2, hpp2, hcase2⟩ :=
    getDocumentName_own_inv t hasOwnDocument p2 r2 s2 hg2 hown2 hproj hd2
  intro heq
  have hfree1 := pathParts_no_slash t p1 parts1 hpp1
  have hfree2 := pathParts_no_slash t p2 parts2 hpp2
  rcases hcase1 with ⟨hb1, hs1⟩ | ⟨hb1, hs1⟩ <;> rcases hcase2 with ⟨hb2, hs2⟩ | ⟨hb2, hs2⟩
  · -- both directory-index pages
    rw [hs1, hs2] at heq
    have hlists : parts1 ++ ["index.html"] = parts2 ++ ["index.html"] := by
      apply joinSep_inj '/' _ _ _ _ (by simp) (by simp) heq
      · intro s hs
        rcases List.mem_append.1 hs with hs | hs
        · exact hfree1 s hs
        · simp only [List.mem_singleton] at hs
          rw [hs]
          decide
      · intro s hs
        rcases List.mem_append.1 hs with hs | hs
        · exact hfree2 s hs
        · simp only [List.mem_singleton] at hs
          rw [hs]
          decide
    have hparts : parts1 = parts2 := List.append_cancel_right hlists
    cases hp1 : p1 with
    | nil =>
      cases hp2 : p2 with
      | nil => exact hne (hp1 ▸ hp2 ▸ rfl)
      | cons j q2 =>
        rw [hp1] at hpp1
        rw [hp2] at hpp2
        unfold pathParts at hpp1
        injection hpp1 with hpp1
        obtain ⟨rest2, w2, _, _, rfl⟩ := pathParts_cons t j q2 parts2 hpp2
        rw [← hpp1] at hparts
        simp at hparts
    | cons i q1 =>
      cases hp2 : p2 with
      | nil =>
        rw [hp1] at hpp1
        rw [hp2] at hpp2
        unfold pathParts at hpp2
        injection hpp2 with hpp2
        obtain ⟨rest1, w1, _, _, rfl⟩ := pathParts_cons t i q1 parts1 hpp1
        rw [← hpp2] at hparts
        simp at hparts
      | cons j q2 =>
        rw [hp1] at hpp1
        rw [hp2] at hpp2
        obtain ⟨rest1, w1, _, hw1, rfl⟩ := pathParts_cons t i q1 parts1 hpp1
        obtain ⟨rest2, w2, _, hw2, rfl⟩ := pathParts_cons t j q2 parts2 hpp2
        have hlasts : _getSafeFilename w1.name = _getSafeFilename w2.name := by
          have h1 := List.getLast?_concat (a := _getSafeFilename w1.name) rest1
          have h2 := List.getLast?_concat (a := _getSafeFilename w2.name) rest2
          rw [hparts] at h1
          rw [h2] at h1
          injection h1 with h1
          exact h1.symm
        have := hinj (i :: q1) (j :: q2) w1 w2 hw1 hw2 hlasts
        rw [← hp1, ← hp2] at this
        exact hne this
  · -- p1 directory-index, p2 leaf document
    rw [hs1, hs2] at heq
    have hlists : parts1 ++ ["index.html"] = parts2.dropLast ++
        [r2.kind.toKindString ++ "." ++ _getSafeFilename r2.name ++ ".html"] := by
      apply joinSep_inj '/' _ _ _ _ (by simp) (by simp) heq
      · intro s hs
        rcases List.mem_append.1 hs with hs | hs
        · exact hfree1 s hs
        · simp only [List.mem_singleton] at hs
          rw [hs]
          decide
      · intro s hs
        rcases List.mem_append.1 hs with hs | hs
        · refine hfree2 s ?_
          rw [List.dropLast_eq_take] at hs
          exact List.take_subset _ _ hs
        · simp only [List.mem_singleton] at hs
          rw [hs]
          exact leaf_no_slash _ _ (kindString_no_slash r2.kind) (safe_no_slash r2.name)
    have h1 := List.getLast?_concat (a := ("index.html" : String)) parts1
    have h2 := List.getLast?_concat
      (a := r2.kind.toKindString ++ "." ++ _getSafeFilename r2.name ++ ".html") parts2.dropLast
    rw [hlists, h2] at h1
    injection h1 with h1
    exact leaf_ne_index _ _ (kindString_no_dot r2.kind) (kindString_ne_index r2.kind) h1
  · -- p1 leaf document, p2 directory-index
    rw [hs1, hs2] at heq
    have hlists : parts1.dropLast ++
        [r1.kind.toKindString ++ "." ++ _getSafeFilename r1.name ++ ".html"] =
        parts2 ++ ["index.html"] := by
      apply joinSep_inj '/' _ _ _ _ (by simp) (by simp) heq
      · intro s hs
        rcases List.mem_append.1 hs with hs | hs
        · refine hfree1 s ?_
          rw [List.dropLast_eq_take] at hs
          exact List.take_subset _ _ hs
        · simp only [List.mem_singleton] at hs
          rw [hs]
          exact leaf_no_slash _ _ (kindString_no_slash r1.kind) (safe_no_slash r1.name)
      · intro s hs
        rcases List.mem_append.1 hs with hs | hs
        · exact hfree2 s hs
        · simp only [List.mem_singleton] at hs
          rw [hs]
          decide
    have h1 := List.getLast?_concat
      (a := r1.kind.toKindString ++ "." ++ _getSafeFilename r1.name ++ ".html") parts1.dropLast
    have h2 := List.getLast?_concat (a := ("index.html" : String)) parts2
    rw [hlists, h2] at h1
    injection h1 with h1
    exact leaf_ne_index _ _ (kindString_no_dot r1.kind) (kindString_ne_index r1.kind) h1.symm
  · -- both leaf documents
    rw [hs1, hs2] at heq
    have hlists : parts1.dropLast ++
        [r1.kind.toKindString ++ "." ++ _getSafeFilename r1.name ++ ".html"] =
        parts2.dropLast ++
        [r2.kind.toKindString ++ "." ++ _getSafeFilename r2.name ++ ".html"] := by
      apply joinSep_inj '/' _ _ _ _ (by simp) (by simp) heq
      · intro s hs
        rcases List.mem_append.1 hs with hs | hs
        · refine hfree1 s ?_
          rw [List.dropLast_eq_take] at hs
          exact List.take_subset _ _ hs
        · simp only [List.mem_singleton] at hs
          rw [hs]
          exact leaf_no_slash _ _ (kindString_no_slash r1.kind) (safe_no_slash r1.name)
      · intro s hs
        rcases List.mem_append.1 hs with hs | hs
        · refine hfree2 s ?_
          rw [List.dropLast_eq_take] at hs
          exact List.take_subset _ _ hs
        · simp only [List.mem_singleton] at hs
          rw [hs]
          exact leaf_no_slash _ _ (kindString_no_slash r2.kind) (safe_no_slash r2.name)
    have h1 := List.getLast?_concat
      (a := r1.kind.toKindString ++ "." ++ _getSafeFilename r1.name ++ ".html") parts1.dropLast
    have h2 := List.getLast?_concat
      (a := r2.kind.toKindString ++ "." ++ _getSafeFilename r2.name ++ ".html") parts2.dropLast
    rw [hlists, h2] at h1
    injection h1 with h1
    obtain ⟨_, hnames⟩ := leaf_inj _ _ _ _ (kindString_no_dot r1.kind)
      (kindString_no_dot r2.kind) h1.symm
    exact hne (hinj p1 p2 r1 r2 hg1 hg2 hnames)

theorem demoTree_san_inj : ∀ (q1 q2 : List Nat) (w1 w2 : Refl),
    getAt demoTree q1 = some w1 → getAt demoTree q2 = some w2 →
    _getSafeFilename w1.name = _getSafeFilename w2.name → q1 = q2 := by
  intro q1 q2 w1 w2 h1 h2 hn
  rcases demoTree_getAt q1 w1 h1 with ⟨hq, hw⟩ | ⟨hq, hw⟩ | ⟨hq, hw⟩ | ⟨hq, hw⟩ <;>
    rcases demoTree_getAt q2 w2 h2 with ⟨hq2, hw2⟩ | ⟨hq2, hw2⟩ | ⟨hq2, hw2⟩ | ⟨hq2, hw2⟩ <;>
    subst hq <;> subst hq2 <;> subst hw <;> subst hw2 <;>
    first
      | rfl
      | (exfalso; revert hn; decide)

/-- C2 amended witness: in the scenario tree — whose sanitized names are
pairwise distinct — the module and class document names are distinct. -/
theorem C2_unique_amended_witness : ("core/index.html" : String) ≠ "core/Class.Foo.html" :=
  C2_unique_amended demoTree [0] [0, 0]
    (.node .Module "core" [.node .Class "Foo" [.node .Method "bar" []]])
    (.node .Class "Foo" [.node .Method "bar" []])
    "core/index.html" "core/Class.Foo.html"
    rfl rfl rfl rfl rfl demoTree_san_inj (by decide) rfl rfl

/-! ### C7: slug uniqueness within a page -/

theorem seedSlugger_SeenOK : SeenOK seedSlugger :=
  ⟨by decide, by decide, by decide, by decide⟩

theorem slug_SeenOK (st : Slugger) (v : String) (h : SeenOK st) : SeenOK (st.slug v).2 :=
  ⟨slug_monotone st v "main" h.1, slug_monotone st v "search" h.2.1,
    slug_monotone st v "theme" h.2.2.1, slug_keys_lowered st v h.2.2.2⟩

theorem slug_MemoOK (st : Slugger) (v : String) (memo : List (List Nat × String))
    (h : MemoOK st memo) : MemoOK (st.slug v).2 memo :=
  ⟨h.1, fun e he =>
    ⟨slug_monotone st v e.2 (h.2 e he).1, (h.2 e he).2.1, (h.2 e he).2.2.1,
      (h.2 e he).2.2.2⟩⟩

theorem ensured_SeenOK (σ : RouterState) (o : List Nat) (hinv : INV σ) :
    SeenOK ((lookupA σ.sluggers o).getD seedSlugger) := by
  cases hst : lookupA σ.sluggers o with
  | none => exact seedSlugger_SeenOK
  | some st => exact hinv.1 o st hst

theorem createSlug_header_INV (t : Refl) (pol : ReflectionKind → Bool) (σ : RouterState)
    (p : List Nat) (h : String) (s : String) (σ' : RouterState) (hne : h ≠ "")
    (hcs : createSlug t pol σ p (some h) = .ok (s, σ')) (hinv : INV σ) : INV σ' := by
    obtain ⟨o, _, _, hslg, hslugs⟩ := createSlug_header_inv t pol σ p h s σ' hne hcs
    constructor
    · intro o' st' hst'
      rw [hslg] at hst'
      by_cases hoo : o' = o
      · subst hoo
        rw [lookupA_setA_self] at hst'
        injection hst' with hst'
        rw [← hst']
        exact slug_SeenOK _ _ (ensured_SeenOK σ o' hinv)
      · rw [lookupA_setA_ne _ _ _ _ hoo] at hst'
        exact hinv.1 o' st' hst'
    · intro o' memo hmemo
      rw [hslugs] at hmemo
      obtain ⟨st, hst, hm⟩ := hinv.2 o' memo hmemo
      by_cases hoo : o' = o
      · subst hoo
        refine ⟨(((lookupA σ.sluggers o').getD seedSlugger).slug h).2, ?_, ?_⟩
        · rw [hslg, lookupA_setA_self]
        · rw [hst]
          exact slug_MemoOK _ _ _ (by simpa [hst] using hm)
      · exact ⟨st, by rw [hslg, lookupA_setA_ne _ _ _ _ hoo]; exact hst, hm⟩

theorem createSlug_none_INV (t : Refl) (pol : ReflectionKind → Bool) (σ : RouterState)
    (p : List Nat) (s : String) (σ' : RouterState)
    (hcs : createSlug t pol σ p none = .ok (s, σ')) (hinv : INV σ) : INV σ' := by
    obtain ⟨o, ho, hcase⟩ := createSlug_node_inv t pol σ p s σ' hcs
    rcases hcase with ⟨_, _, rfl⟩ | ⟨hpo, parts, hsp, ⟨hl, rfl⟩ | ⟨hl, hs, rfl⟩⟩
    · exact hinv
    · -- memo hit
      constructor
      · intro o' st' hst'
        simp only [] at hst'
        by_cases hoo : o' = o
        · subst hoo
          rw [lookupA_setA_self] at hst'
          injection hst' with hst'
          rw [← hst']
          exact ensured_SeenOK σ o' hinv
        · rw [lookupA_setA_ne _ _ _ _ hoo] at hst'
          exact hinv.1 o' st' hst'
      · intro o' memo hmemo
        simp only [] at hmemo
        by_cases hoo : o' = o
        · subst hoo
          rw [lookupA_setA_self] at hmemo
          injection hmemo with hmemo
          cases hm0 : lookupA σ.slugs o' with
          | none =>
            rw [hm0] at hl
            simp only [Option.getD_none] at hl
            simp [lookupA] at hl
          | some m0 =>
            obtain ⟨st, hst, hm⟩ := hinv.2 o' m0 hm0
            rw [hm0] at hl
            simp only [Option.getD_some] at hl
            refine ⟨(lookupA σ.sluggers o').getD seedSlugger, lookupA_setA_self _ _ _, ?_⟩
            rw [← hmemo, hm0]
            simp only [Option.getD_some]
            rw [setA_eq_of_lookupA _ _ _ hl, hst]
            simpa [hst] using hm
        · rw [lookupA_setA_ne _ _ _ _ hoo] at hmemo
          obtain ⟨st, hst, hm⟩ := hinv.2 o' memo hmemo
          refine ⟨st, ?_, hm⟩
          dsimp only []
          rw [lookupA_setA_ne _ _ _ _ hoo]
          exact hst
    · -- fresh issue
      have hSeen0 : SeenOK ((lookupA σ.sluggers o).getD seedSlugger) := ensured_SeenOK σ o hinv
      have hfresh := slugPick_fresh ((lookupA σ.sluggers o).getD seedSlugger)
        (serialize (joinSep '-' parts))
      constructor
      · intro o' st' hst'
        simp only [] at hst'
        by_cases hoo : o' = o
        · subst hoo
          rw [lookupA_setA_self] at hst'
          injection hst' with hst'
          rw [← hst']
          exact slug_SeenOK _ _ hSeen0
        · rw [lookupA_setA_ne _ _ _ _ hoo] at hst'
          exact hinv.1 o' st' hst'
      · intro o' memo hmemo
        simp only [] at hmemo
        by_cases hoo : o' = o
        · subst hoo
          rw [lookupA_setA_self] at hmemo
          injection hmemo with hmemo
          have hmOK : MemoOK ((lookupA σ.sluggers o').getD seedSlugger)
              ((lookupA σ.slugs o').getD []) := by
            cases hm0 : lookupA σ.slugs o' with
            | none => exact ⟨List.Pairwise.nil, by simp⟩
            | some m0 =>
              obtain ⟨st, hst, hm⟩ := hinv.2 o' m0 hm0
              simp only [Option.getD_some]
              rw [hst]
              simpa [hst] using hm
          have hfree : ¬(lookupA ((lookupA σ.sluggers o').getD seedSlugger).seen s).isSome := by
            rw [hs]
            exact slug_fresh _ _
          refine ⟨(((lookupA σ.sluggers o').getD seedSlugger).slug (joinSep '-' parts)).2,
            lookupA_setA_self _ _ _, ?_⟩
          rw [← hmemo, setA_eq_append_of_lookupA_none _ _ _ hl]
          constructor
          · rw [List.pairwise_append]
            refine ⟨hmOK.1, by simp, ?_⟩
            intro a ha b hb
            simp only [List.mem_singleton] at hb
            rw [hb]
            dsimp only []
            intro hcontra
            exact hfree (hcontra ▸ (hmOK.2 a ha).1)
          · intro e he
            rcases List.mem_append.1 he with he | he
            · obtain ⟨hseen, hm1, hm2, hm3⟩ := hmOK.2 e he
              exact ⟨slug_monotone _ _ _ hseen, hm1, hm2, hm3⟩
            · simp only [List.mem_singleton] at he
              rw [he]
              dsimp only []
              refine ⟨?_, ?_, ?_, ?_⟩
              · rw [hs]
                rw [slug_self_mem]
                rfl
              · intro hcontra
                refine hfree ?_
                rw [hcontra]
                exact hSeen0.1
              · intro hcontra
                refine hfree ?_
                rw [hcontra]
                exact hSeen0.2.1
              · intro hcontra
                refine hfree ?_
                rw [hcontra]
                exact hSeen0.2.2.1
        · rw [lookupA_setA_ne _ _ _ _ hoo] at hmemo
          obtain ⟨st, hst, hm⟩ := hinv.2 o' memo hmemo
          refine ⟨st, ?_, hm⟩
          dsimp only []
          rw [lookupA_setA_ne _ _ _ _ hoo]
          exact hst

theorem createSlug_INV (t : Refl) (pol : ReflectionKind → Bool) (σ : RouterState)
    (p : List Nat) (hdr : Option String) (s : String) (σ' : RouterState)
    (hcs : createSlug t pol σ p hdr = .ok (s, σ')) (hinv : INV σ) : INV σ' := by
  cases hdr with
  | some h =>
    by_cases hhe : h = ""
    · subst hhe
      rw [createSlug_empty_header] at hcs
      exact createSlug_none_INV t pol σ p s σ' hcs hinv
    · exact createSlug_header_INV t pol σ p h s σ' hhe hcs hinv
  | none => exact createSlug_none_INV t pol σ p s σ' hcs hinv

theorem runOp_state (t : Refl) (pol : ReflectionKind → Bool) (σ σ' : RouterState) (op : Op)
    (h : runOp t pol σ op = .ok σ') :
    σ' = σ ∨ ∃ q hdr r, createSlug t pol σ q hdr = .ok (r, σ') := by
  cases op with
  | slugNode q =>
    simp only [runOp, Except.map] at h
    cases hcs : createSlug t pol σ q none with
    | error e => rw [hcs] at h; simp at h
    | ok rr =>
      rw [hcs] at h
      injection h with h
      exact Or.inr ⟨q, none, rr.1, by rw [hcs, ← h]⟩
  | slugHeader q hh =>
    simp only [runOp, Except.map] at h
    cases hcs : createSlug t pol σ q (some hh) with
    | error e => rw [hcs] at h; simp at h
    | ok rr =>
      rw [hcs] at h
      injection h with h
      exact Or.inr ⟨q, some hh, rr.1, by rw [hcs, ← h]⟩
  | link q1 q2 =>
    simp only [runOp, Except.map] at h
    cases hcl : createLink t pol σ q1 q2 with
    | error e => rw [hcl] at h; simp at h
    | ok rr =>
      rw [hcl] at h
      injection h with h
      obtain ⟨s', hcs⟩ := createLink_state t pol σ q1 q2 rr.1 rr.2 (by rw [hcl])
      exact Or.inr ⟨q2, none, s', by rw [hcs, h]⟩
  | assetLink q a =>
    simp only [runOp, Except.map] at h
    unfold createAssetLink at h
    cases h1 : _getReflectionWithDocument t pol q with
    | error e => rw [h1] at h; simp at h
    | ok oo =>
      rw [h1] at h
      dsimp only [] at h
      cases h2 : getDocumentName t pol oo with
      | error e => rw [h2] at h; simp at h
      | ok d =>
        rw [h2] at h
        injection h with h
        exact Or.inl h.symm
  | mediaLink q m =>
    simp only [runOp, Except.map] at h
    unfold createMediaLink at h
    cases h1 : _getReflectionWithDocument t pol q with
    | error e => rw [h1] at h; simp at h
    | ok oo =>
      rw [h1] at h
      dsimp only [] at h
      cases h2 : getDocumentName t pol oo with
      | error e => rw [h2] at h; simp at h
      | ok d =>
        rw [h2] at h
        injection h with h
        exact Or.inl h.symm
  | docName q =>
    simp only [runOp, getDocumentNameS, Except.map] at h
    cases h1 : getDocumentName t pol q with
    | error e => rw [h1] at h; simp at h
    | ok d =>
      rw [h1] at h
      injection h with h
      exact Or.inl h.symm

theorem runOp_INV (t : Refl) (pol : ReflectionKind → Bool) (σ σ' : RouterState) (op : Op)
    (h : runOp t pol σ op = .ok σ') (hinv : INV σ) : INV σ' := by
  rcases runOp_state t pol σ σ' op h with rfl | ⟨q, hdr, r, hcs⟩
  · exact hinv
  · exact createSlug_INV t pol σ q hdr r σ' hcs hinv

theorem runOps_INV (t : Refl) (pol : ReflectionKind → Bool) :
    ∀ (ops : List Op) (σ σ' : RouterState),
      runOps t pol σ ops = .ok σ' → INV σ → INV σ'
  | [], σ, σ', h, hinv => by
    simp only [runOps] at h
    injection h with h
    rw [← h]
    exact hinv
  | op :: ops, σ, σ', h, hinv => by
    simp only [runOps] at h
    cases h1 : runOp t pol σ op with
    | error e => rw [h1] at h; simp at h
    | ok σ1 =>
      rw [h1] at h
      exact runOps_INV t pol ops σ1 σ' h (runOp_INV t pol σ σ1 op h1 hinv)

theorem INV_initial : INV initialState := by
  constructor
  · intro o st hst
    simp [initialState, lookupA] at hst
  · intro o memo hmemo
    simp [initialState, lookupA] at hmemo

/-- C7 amended: within one page's lifetime, no two header-less slug queries
for distinct non-owner nodes (the queries that reach the page's uniquifier;
the page owner's own query returns the empty string without registering it,
see the counterexample) return case-insensitive-equal strings, and no such
slug equals one of the reserved identifiers `main`, `search`, `theme`, which
are pre-registered before any slug is issued. -/
theorem C7_amended (t : Refl) (pol : ReflectionKind → Bool)
    (ops1 : List Op) (σ1 : RouterState) (n1 : List Nat) (s1 : String) (σ2 : RouterState)
    (ops2 : List Op) (σ3 : RouterState) (n2 : List Nat) (s2 : String) (σ4 : RouterState)
    (o : List Nat)
    (hruns1 : runOps t pol initialState ops1 = .ok σ1)
    (h1 : createSlug t pol σ1 n1 none = .ok (s1, σ2))
    (hruns2 : runOps t pol σ2 ops2 = .ok σ3)
    (h2 : createSlug t pol σ3 n2 none = .ok (s2, σ4))
    (ho1 : _getReflectionWithDocument t pol n1 = .ok o)
    (ho2 : _getReflectionWithDocument t pol n2 = .ok o)
    (hn1 : n1 ≠ o) (hn2 : n2 ≠ o) (hne : n1 ≠ n2) :
    strLower s1 ≠ strLower s2 ∧
    (s1 ≠ "main" ∧ s1 ≠ "search" ∧ s1 ≠ "theme") ∧
    (s2 ≠ "main" ∧ s2 ≠ "search" ∧ s2 ≠ "theme") := by
  have hinv1 : INV σ1 := runOps_INV t pol ops1 initialState σ1 hruns1 INV_initial
  have hinv2 : INV σ2 := createSlug_INV t pol σ1 n1 none s1 σ2 h1 hinv1
  have hinv3 : INV σ3 := runOps_INV t pol ops2 σ2 σ3 hruns2 hinv2
  have hmem2 : MemoAt σ2 o n1 s1 := createSlug_sets_memo t pol σ1 n1 s1 σ2 o h1 ho1 hn1
  have hmem3 : MemoAt σ3 o n1 s1 := runOps_preserves_memo t pol ops2 σ2 σ3 o n1 s1 hruns2 hmem2
  obtain ⟨memo, hmemo, hlook1⟩ := hmem3
  obtain ⟨st, hst, hmOK⟩ := hinv3.2 o memo hmemo
  have he1 : (n1, s1) ∈ memo := lookupA_mem _ _ _ hlook1
  have hs1facts := hmOK.2 (n1, s1) he1
  have hSeenSt : SeenOK st := hinv3.1 o st hst
  have hs1low : strLower s1 = s1 := by
    obtain ⟨v, hv⟩ := Option.isSome_iff_exists.1 hs1facts.1
    exact hSeenSt.2.2.2 (s1, v) (lookupA_mem _ _ _ hv)
  obtain ⟨o2', ho2', hcase2⟩ := createSlug_node_inv t pol σ3 n2 s2 σ4 h2
  rw [ho2] at ho2'
  injection ho2' with ho2'
  subst ho2'
  rcases hcase2 with ⟨hn2', _, _⟩ | ⟨_, parts, hsp, ⟨hl, _⟩ | ⟨hl, hs2eq, _⟩⟩
  · exact absurd hn2' hn2
  · -- the second query hits the memo
    rw [hmemo] at hl
    simp only [Option.getD_some] at hl
    have he2 : (n2, s2) ∈ memo := lookupA_mem _ _ _ hl
    have hs2facts := hmOK.2 (n2, s2) he2
    have hs2low : strLower s2 = s2 := by
      obtain ⟨v, hv⟩ := Option.isSome_iff_exists.1 hs2facts.1
      exact hSeenSt.2.2.2 (s2, v) (lookupA_mem _ _ _ hv)
    have hdiff : s1 ≠ s2 := by
      intro heq
      have hnepair : ((n1, s1) : List Nat × String) ≠ (n2, s2) := by
        intro hp
        exact hne (congrArg Prod.fst hp)
      have hsymm : Symmetric (fun (e e' : List Nat × String) => e.2 ≠ e'.2) :=
        fun a b h h' => h h'.symm
      exact hmOK.1.forall hsymm he1 he2 hnepair heq
    refine ⟨?_, ⟨hs1facts.2.1, hs1facts.2.2.1, hs1facts.2.2.2⟩,
      ⟨hs2facts.2.1, hs2facts.2.2.1, hs2facts.2.2.2⟩⟩
    rw [hs1low, hs2low]
    exact hdiff
  · -- the second query issues a fresh slug
    have hst0 : (lookupA σ3.sluggers o).getD seedSlugger = st := by
      rw [hst]
      rfl
    rw [hst0] at hs2eq
    have hfresh : ¬(lookupA st.seen s2).isSome := by
      rw [hs2eq]
      exact slug_fresh st (joinSep '-' parts)
    have hs2low : strLower s2 = s2 := by
      rw [hs2eq]
      exact slug_result_lowered st (joinSep '-' parts)
    have hdiff : s1 ≠ s2 := by
      intro heq
      refine hfresh ?_
      rw [← heq]
      exact hs1facts.1
    refine ⟨?_, ⟨hs1facts.2.1, hs1facts.2.2.1, hs1facts.2.2.2⟩, ⟨?_, ?_, ?_⟩⟩
    · rw [hs1low, hs2low]
      exact hdiff
    · intro hcontra
      refine hfresh ?_
      rw [hcontra]
      exact hSeenSt.1
    · intro hcontra
      refine hfresh ?_
      rw [hcontra]
      exact hSeenSt.2.1
    · intro hcontra
      refine hfresh ?_
      rw [hcontra]
      exact hSeenSt.2.2.1

/-- C7 amended witness: the methods `Foo` and `foo` on the page of class `C`
receive the case-insensitively distinct, non-reserved slugs `foo` and
`foo-1`. -/
theorem C7_amended_witness :
    strLower "foo" ≠ strLower "foo-1" ∧
    (("foo" : String) ≠ "main" ∧ ("foo" : String) ≠ "search" ∧ ("foo" : String) ≠ "theme") ∧
    (("foo-1" : String) ≠ "main" ∧ ("foo-1" : String) ≠ "search" ∧
      ("foo-1" : String) ≠ "theme") :=
  C7_amended caseTree hasOwnDocument [] initialState [0, 0] "foo"
    (stateAfter (createSlug caseTree hasOwnDocument initialState [0, 0] none))
    [] (stateAfter (createSlug caseTree hasOwnDocument initialState [0, 0] none))
    [1, 0] "foo-1"
    (stateAfter (createSlug caseTree hasOwnDocument
      (stateAfter (createSlug caseTree hasOwnDocument initialState [0, 0] none)) [1, 0] none))
    [0] rfl rfl rfl rfl rfl rfl (by decide) (by decide) (by decide)

/-- C3 witness: on the scenario tree the slug of `bar` and its document name
are reproduced after an interleaved header query and a query for another
node. -/
theorem C3_idempotent_witness :
    ("bar" : String) = "bar" ∧ ("core/Class.Foo.html" : String) = "core/Class.Foo.html" :=
  C3_idempotent demoTree hasOwnDocument initialState [0, 0, 0] "bar"
    (stateAfter (createSlug demoTree hasOwnDocument initialState [0, 0, 0] none))
    [Op.slugHeader [0, 0] "Example", Op.slugNode [0, 0, 0]]
    (stateAfterRun (runOps demoTree hasOwnDocument
      (stateAfter (createSlug demoTree hasOwnDocument initialState [0, 0, 0] none))
      [Op.slugHeader [0, 0] "Example", Op.slugNode [0, 0, 0]]))
    "bar"
    (stateAfter (createSlug demoTree hasOwnDocument
      (stateAfterRun (runOps demoTree hasOwnDocument
        (stateAfter (createSlug demoTree hasOwnDocument initialState [0, 0, 0] none))
        [Op.slugHeader [0, 0] "Example", Op.slugNode [0, 0, 0]]))
      [0, 0, 0] none))
    "core/Class.Foo.html" "core/Class.Foo.html"
    initialState
    (stateAfterRun (runOps demoTree hasOwnDocument
      (stateAfter (createSlug demoTree hasOwnDocument initialState [0, 0, 0] none))
      [Op.slugHeader [0, 0] "Example", Op.slugNode [0, 0, 0]]))
    rfl rfl rfl rfl rfl

end Router
